import Mathlib

/-!
Verification development for the hackfed/toolbox registry checker and
telephony-directory generator.

The TypeScript sources embedded here:
  * src/cmds/check-registry/index.ts  (the `check-registry` command)
  * src/cmds/generate-telephony (second part of src/index.ts)

External collaborators (the `ipaddr.js` library, the WHATWG `URL` class,
the YAML parser and the schema validator, the file system) are modelled at
their boundary: records arrive already parsed and schema-checked, the set
of certificate files present on disk is a parameter, and the IP/URL parsers
are modelled after the external libraries' documented behaviour on the
kinds of strings the registry uses.
-/

/-! ## Character-level parsing helpers (shared by the ipaddr and URL models) -/

/-- Hexadecimal digit test, as in ipaddr.js group parsing. -/
def isHexDigitChar (c : Char) : Bool :=
  c.isDigit || ('a' ≤ c && c ≤ 'f') || ('A' ≤ c && c ≤ 'F')

/-- Numeric value of a hexadecimal digit. -/
def hexVal (c : Char) : Nat :=
  if c.isDigit then c.toNat - '0'.toNat
  else if 'a' ≤ c && c ≤ 'f' then c.toNat - 'a'.toNat + 10
  else c.toNat - 'A'.toNat + 10

/-- Split a character list on a separator, keeping empty pieces
(like String.prototype.split in JavaScript). -/
def splitChar (sep : Char) : List Char → List (List Char)
  | [] => [[]]
  | c :: rest =>
    if c = sep then [] :: splitChar sep rest
    else
      match splitChar sep rest with
      | [] => [[c]]
      | g :: gs => (c :: g) :: gs

/-- Break a character list at the first occurrence of a double colon,
returning the pieces before and after it (none when there is no double
colon).  Used by the IPv6 parser model. -/
def breakDC : List Char → Option (List Char × List Char)
  | [] => none
  | ':' :: ':' :: rest => some ([], rest)
  | c :: rest => (breakDC rest).map fun pr => (c :: pr.1, pr.2)

/-- Parse one IPv6 hex group: one to four hex digits. -/
def parseHexGroup (cs : List Char) : Option Nat :=
  if cs ≠ [] ∧ cs.length ≤ 4 ∧ cs.all isHexDigitChar then
    some (cs.foldl (fun a c => a * 16 + hexVal c) 0)
  else none

/-- Parse one dotted-quad octet: one to three decimal digits, value at most 255. -/
def parseDecOctet (cs : List Char) : Option Nat :=
  if cs ≠ [] ∧ cs.length ≤ 3 ∧ cs.all Char.isDigit then
    let v := cs.foldl (fun a c => a * 10 + (c.toNat - '0'.toNat)) 0
    if v ≤ 255 then some v else none
  else none

/-- Parse a nonempty run of decimal digits as a natural number. -/
def parseDecNat (cs : List Char) : Option Nat :=
  if cs ≠ [] ∧ cs.all Char.isDigit then
    some (cs.foldl (fun a c => a * 10 + (c.toNat - '0'.toNat)) 0)
  else none

/-! ## Model of the external ipaddr.js collaborator

Modelled from the documented behaviour of the `ipaddr.js` library used by
the checker: `ipaddr.parse` accepts IPv6 literals (hex groups separated by
colons, with at most one `::` compression) and IPv4 dotted-quad literals,
and throws on anything else; `addr.match([network, bits])` compares the
first `bits` bits and throws when the address kinds differ;
`ipaddr.parseCIDR` splits at `/`. -/

/-- An address parsed by the ipaddr.js model: four IPv4 octets or eight
16-bit IPv6 groups. -/
inductive ParsedIp
  | v4 (octets : List Nat)
  | v6 (groups : List Nat)
deriving DecidableEq

/-- IPv6 parsing on a character list: either exactly eight groups with no
compression, or one double colon standing for the missing zero groups. -/
def ipv6GroupsCore (cs : List Char) : Option (List Nat) :=
  match breakDC cs with
  | none =>
    match (splitChar ':' cs).mapM parseHexGroup with
    | some gs => if gs.length = 8 then some gs else none
    | none => none
  | some (l, r) =>
    if (breakDC r).isSome then none
    else
      let lgs := if l = [] then some [] else (splitChar ':' l).mapM parseHexGroup
      let rgs := if r = [] then some [] else (splitChar ':' r).mapM parseHexGroup
      match lgs, rgs with
      | some a, some b =>
        if a.length + b.length ≤ 7 then
          some (a ++ List.replicate (8 - a.length - b.length) 0 ++ b)
        else none
      | _, _ => none

/-- IPv6 parsing of a string. -/
def ipv6Groups (s : String) : Option (List Nat) := ipv6GroupsCore s.data

/-- IPv4 dotted-quad parsing of a string. -/
def ipv4Octets (s : String) : Option (List Nat) :=
  match (splitChar '.' s.data).mapM parseDecOctet with
  | some os => if os.length = 4 then some os else none
  | none => none

/-- Model of ipaddr.parse: IPv6 if valid, else IPv4 if valid, else none
(the library throws in the none case). -/
def ipaddrParse (s : String) : Option ParsedIp :=
  match ipv6Groups s with
  | some g => some (.v6 g)
  | none =>
    match ipv4Octets s with
    | some o => some (.v4 o)
    | none => none

/-- Model of ipaddr.js matchCIDR: compare the leading `bits` bits of two
addresses given as lists of `partSize`-bit parts. -/
def matchCIDR : List Nat → List Nat → Nat → Nat → Bool
  | _, _, _, 0 => true
  | a :: as, b :: bs, part, bits =>
    if part ≤ bits then (a == b) && matchCIDR as bs part (bits - part)
    else (a / 2 ^ (part - bits)) == (b / 2 ^ (part - bits))
  | _, _, _, _ => false

/-- Model of ipaddr.parseCIDR restricted to IPv6 networks, as used on the
checker's fixed constant. -/
def parseCIDRv6 (s : String) : Option (List Nat × Nat) :=
  match splitChar '/' s.data with
  | [a, b] =>
    match ipv6GroupsCore a, parseDecNat b with
    | some g, some bits => if bits ≤ 128 then some (g, bits) else none
    | _, _ => none
  | _ => none

/-- Model of addr.match(parsedCidr): ipaddr.js throws (here: .error) when an
IPv4 address is matched against the IPv6 network. -/
def ipMatch (ip : ParsedIp) (cidr : List Nat × Nat) : Except String Bool :=
  match ip with
  | .v4 _ => .error "ipaddr: cannot match ipv4 address with non-ipv4 one"
  | .v6 g => .ok (matchCIDR g cidr.1 16 cidr.2)

/-! ## Model of the external WHATWG URL collaborator

The checker builds `new URL(scheme + "://" + s)` for a non-special scheme
and inspects `url.port`.  The model below takes the part after `://` and
returns none when URL construction throws (non-digit or oversized port),
`some none` when the URL parses but carries no port, and `some (some p)`
when an explicit port `p` is present.  It is modelled for the plain
`host:port` authorities the registry uses (no userinfo, no bracketed
IPv6 hosts). -/
def urlPortOf (s : String) : Option (Option Nat) :=
  let auth := s.data.takeWhile fun c => c != '/'
  if auth.contains ':' then
    let port := (auth.dropWhile fun c => c != ':').drop 1
    if port = [] then some none
    else if port.all Char.isDigit then
      let v := port.foldl (fun a c => a * 10 + (c.toNat - '0'.toNat)) 0
      if v ≤ 65535 then some (some v) else none
    else none
  else some none

/-! ## Data model (the typed records produced by the schema collaborator) -/

/-- Lighthouse block of a Nebula node. -/
structure Lighthouse where
  endpoints : Option (List String)
deriving DecidableEq

/-- NebulaNode: one overlay-network endpoint. -/
structure NebulaNode where
  address : String
  certificates : List String
  lighthouse : Option Lighthouse
deriving DecidableEq

/-- TelephonyExchange: one SIP-like endpoint. -/
structure TelephonyExchange where
  id : String
  address : String
  codecs : List String
  protocol : String
deriving DecidableEq

/-- One dialing-prefix-to-exchange binding.  The field `pfx` models the
source field named `prefix` (renamed because that word is a Lean keyword). -/
structure PrefixEntry where
  pfx : String
  exchange : String
deriving DecidableEq

/-- Telephony service declaration.  Phonebook entries are opaque
pass-through data, modelled as strings. -/
structure TelephonyService where
  exchanges : Option (List TelephonyExchange)
  prefixes : Option (List PrefixEntry)
  phonebook : Option (List String)
deriving DecidableEq

/-- The optional services block of an organization record. -/
structure Services where
  nebula : Option (List NebulaNode)
  telephony : Option TelephonyService
deriving DecidableEq

/-- Metadata section of an organization record. -/
structure Metadata where
  orgId : String
deriving DecidableEq

/-- Spec section of an organization record. -/
structure OrgSpec where
  id : String
  name : String
  services : Option Services
deriving DecidableEq

/-- A schema-validated organization record. -/
structure Organization where
  apiVersion : String
  metadata : Metadata
  spec : OrgSpec
deriving DecidableEq

/-- Nebula nodes declared by an organization (empty when the service is
absent, mirroring the checker's continue on a missing service). -/
def nebulaNodesOf (o : Organization) : Option (List NebulaNode) :=
  o.spec.services.bind Services.nebula

/-- Telephony service declared by an organization, when present. -/
def telephonyOf (o : Organization) : Option TelephonyService :=
  o.spec.services.bind Services.telephony

/-! ## JavaScript Map and Set models

The sources use Map<string, T> and Set<string>.  A Map is an insertion
ordered association list: set on an existing key updates the value in
place, set on a new key appends.  A Set is an insertion ordered list of
distinct strings. -/

/-- Model of JavaScript Map.prototype.set. -/
def jsMapSet {α : Type} (m : List (String × α)) (k : String) (v : α) : List (String × α) :=
  if m.any fun kv => kv.1 == k then
    m.map fun kv => if kv.1 == k then (k, v) else kv
  else m ++ [(k, v)]

/-- Model of JavaScript Map.prototype.get. -/
def jsMapGet {α : Type} (m : List (String × α)) (k : String) : Option α :=
  (m.find? fun kv => kv.1 == k).map fun kv => kv.2

/-- Model of JavaScript Set.prototype.add. -/
def setAdd (s : List String) (x : String) : List String :=
  if s.contains x then s else s ++ [x]

/-! ## Error taxonomy of the check operation

Each constructor corresponds to one logger.error + process.exit(1) site in
src/cmds/check-registry/index.ts, except `uncaught`, which models an
exception thrown by an external collaborator that no try/catch in the
command intercepts (the process then dies without a logged violation). -/

/-- Errors the check operation can terminate with. -/
inductive CheckError
  | unsupportedVersion (ver : String)
  | identityMismatch (fileName badId : String)
  | addressOutOfRange (orgId addr : String)
  | duplicateAddress (orgId addr : String)
  | missingCertificate (orgId fp : String)
  | invalidEndpoint (orgId ep : String)
  | duplicateExchange (orgId exId : String)
  | invalidExchangeAddress (orgId addr : String)
  | duplicateGlobalPfx (orgId p : String)
  | duplicateLocalPfx (orgId p : String)
  | unknownExchangeRef (orgId exId : String)
  | uncaught (msg : String)
deriving DecidableEq

/-- The kind of a check error, forgetting its message payload. -/
inductive ErrKind
  | unsupportedVersion
  | identityMismatch
  | addressOutOfRange
  | duplicateAddress
  | missingCertificate
  | invalidEndpoint
  | duplicateExchange
  | invalidExchangeAddress
  | duplicateGlobalPfx
  | duplicateLocalPfx
  | unknownExchangeRef
  | uncaught
deriving DecidableEq

/-- Kind of an error. -/
def CheckError.kind : CheckError → ErrKind
  | .unsupportedVersion _ => .unsupportedVersion
  | .identityMismatch _ _ => .identityMismatch
  | .addressOutOfRange _ _ => .addressOutOfRange
  | .duplicateAddress _ _ => .duplicateAddress
  | .missingCertificate _ _ => .missingCertificate
  | .invalidEndpoint _ _ => .invalidEndpoint
  | .duplicateExchange _ _ => .duplicateExchange
  | .invalidExchangeAddress _ _ => .invalidExchangeAddress
  | .duplicateGlobalPfx _ _ => .duplicateGlobalPfx
  | .duplicateLocalPfx _ _ => .duplicateLocalPfx
  | .unknownExchangeRef _ _ => .unknownExchangeRef
  | .uncaught _ => .uncaught

/-- Whether the process logs the violation before terminating: true for
every logger.error + process.exit site, false for an uncaught exception. -/
def CheckError.isLogged : CheckError → Bool
  | .uncaught _ => false
  | _ => true

/-! ## Record Loader and Registry Assembler (checkOrganizations / checkOrganization) -/

/-- Base name of a registry file as computed by
path.basename(orgPath, path.extname(orgPath)) on the *.yaml files the glob
produces: the ".yaml" extension is stripped. -/
def stripExt (s : String) : String :=
  if s.data.drop (s.data.length - 5) = ".yaml".data then
    String.mk (s.data.take (s.data.length - 5))
  else s

/-- One candidate record file: its file name (relative to the orgs
directory) and the schema-validated record the YAML/schema collaborators
produce from it. -/
structure OrgFile where
  fileName : String
  org : Organization
deriving DecidableEq

/-- The assembled registry map (JavaScript Map from organization id to
record, in insertion order). -/
abbrev OrganizationMap := List (String × Organization)

/-- Model of checkOrganization: supported apiVersion, then declared
metadata orgId must equal the file base name, then the spec id must equal
the metadata orgId.  Returns the record unchanged on success. -/
def checkOrganization (filePath : String) (org : Organization) : Except CheckError Organization :=
  if org.apiVersion ≠ "hackfed/v1" then
    .error (.unsupportedVersion org.apiVersion)
  else
    let fileName := stripExt filePath
    if org.metadata.orgId ≠ fileName then
      .error (.identityMismatch fileName org.metadata.orgId)
    else if org.metadata.orgId ≠ org.spec.id then
      .error (.identityMismatch fileName org.spec.id)
    else .ok org

/-- Model of the assembly loop in checkOrganizations: each file is loaded
through checkOrganization and stored under its spec id with Map.set. -/
def assembleOrgs (m : OrganizationMap) : List OrgFile → Except CheckError OrganizationMap
  | [] => .ok m
  | f :: rest =>
    match checkOrganization f.fileName f.org with
    | .error e => .error e
    | .ok org => assembleOrgs (jsMapSet m org.spec.id org) rest

/-! ## Network Consistency Checker (checkNebulaService) -/

/-- The fixed overlay-network CIDR constant
(HACKFED_NET_TELEPHONY_PREFIX in the source). -/
def hackfedNetCidr : String := "fd79:7636:1f08:883d::/64"

/-- The parsed CIDR the checker computes once per run. -/
def hackfedCidrParts : List Nat × Nat := (parseCIDRv6 hackfedNetCidr).getD ([], 0)

/-- Certificate existence loop of one node: each referenced fingerprint
must be among the certificate files present on disk (the `certs`
parameter models the contents of nebula/certificates). -/
def checkCerts (certs : List String) (orgId : String) : List String → Except CheckError Unit
  | [] => .ok ()
  | fp :: rest =>
    if certs.contains fp then checkCerts certs orgId rest
    else .error (.missingCertificate orgId fp)

/-- Lighthouse endpoint loop of one node: each endpoint must parse as a
URL and carry an explicit port. -/
def checkEndpoints (orgId : String) : List String → Except CheckError Unit
  | [] => .ok ()
  | ep :: rest =>
    match urlPortOf ep with
    | none => .error (.invalidEndpoint orgId ep)
    | some none => .error (.invalidEndpoint orgId ep)
    | some (some _) => checkEndpoints orgId rest

/-- Model of one iteration of the node loop in checkNebulaService: parse
the address (uncaught throw when unparseable), match it against the fixed
CIDR (uncaught throw for an IPv4 address, logged error when outside the
block), reject duplicates against the running address set, check
certificates and lighthouse endpoints, then add the address to the set. -/
def checkNode (certs : List String) (orgId : String) (seen : List String) (n : NebulaNode) : Except CheckError (List String) :=
  match ipaddrParse n.address with
  | none => .error (.uncaught "ipaddr: the address has neither IPv6 nor IPv4 format")
  | some ip =>
    match ipMatch ip hackfedCidrParts with
    | .error m => .error (.uncaught m)
    | .ok inRange =>
      if !inRange then .error (.addressOutOfRange orgId n.address)
      else if seen.contains n.address then .error (.duplicateAddress orgId n.address)
      else
        match checkCerts certs orgId n.certificates with
        | .error e => .error e
        | .ok _ =>
          match checkEndpoints orgId ((n.lighthouse.bind Lighthouse.endpoints).getD []) with
          | .error e => .error e
          | .ok _ => .ok (seen ++ [n.address])

/-- Node loop of one organization, threading the global address set. -/
def checkNodes (certs : List String) (orgId : String) (seen : List String) : List NebulaNode → Except CheckError (List String)
  | [] => .ok seen
  | n :: rest =>
    match checkNode certs orgId seen n with
    | .error e => .error e
    | .ok seen' => checkNodes certs orgId seen' rest

/-- Model of checkNebulaService: iterate organizations in registry order,
skipping those without a nebula service. -/
def checkNebulaOrgs (certs : List String) (seen : List String) : List Organization → Except CheckError (List String)
  | [] => .ok seen
  | org :: rest =>
    match nebulaNodesOf org with
    | none => checkNebulaOrgs certs seen rest
    | some nodes =>
      match checkNodes certs org.spec.id seen nodes with
      | .error e => .error e
      | .ok seen' => checkNebulaOrgs certs seen' rest

/-! ## Telephony Consistency Checker (checkTelephonyService) -/

/-- Exchange loop of one organization: duplicate ids within the
organization are rejected, each address must be a URL with an explicit
port, and the id is added to the organization's exchange set. -/
def checkExchanges (orgId : String) (orgEx : List String) : List TelephonyExchange → Except CheckError (List String)
  | [] => .ok orgEx
  | ex :: rest =>
    if orgEx.contains ex.id then .error (.duplicateExchange orgId ex.id)
    else
      match urlPortOf ex.address with
      | none => .error (.invalidExchangeAddress orgId ex.address)
      | some none => .error (.invalidExchangeAddress orgId ex.address)
      | some (some _) => checkExchanges orgId (orgEx ++ [ex.id]) rest

/-- Prefix loop of one organization: global duplicate check first, then
the organization-local duplicate check, then the exchange reference must
exist in the organization's exchange set; the prefix is then added to both
the global and the local set. -/
def checkPrefixList (orgId : String) (global orgSet : List String) (exIds : List String) : List PrefixEntry → Except CheckError (List String × List String)
  | [] => .ok (global, orgSet)
  | p :: rest =>
    if global.contains p.pfx then .error (.duplicateGlobalPfx orgId p.pfx)
    else if orgSet.contains p.pfx then .error (.duplicateLocalPfx orgId p.pfx)
    else if !exIds.contains p.exchange then .error (.unknownExchangeRef orgId p.exchange)
    else checkPrefixList orgId (global ++ [p.pfx]) (orgSet ++ [p.pfx]) exIds rest

/-- Model of checkTelephonyService: per organization, fresh local sets,
exchanges checked before prefixes, global prefix set threaded through. -/
def checkTelephonyOrgs (global : List String) : List Organization → Except CheckError (List String)
  | [] => .ok global
  | org :: rest =>
    match telephonyOf org with
    | none => checkTelephonyOrgs global rest
    | some tel =>
      match checkExchanges org.spec.id [] (tel.exchanges.getD []) with
      | .error e => .error e
      | .ok exIds =>
        match checkPrefixList org.spec.id global [] exIds (tel.prefixes.getD []) with
        | .error e => .error e
        | .ok gs => checkTelephonyOrgs gs.1 rest

/-! ## The check operation end to end -/

/-- A registry on disk: the *.yaml record files of the orgs directory in
glob order, and the certificate fingerprints that have a .crt file under
nebula/certificates. -/
structure Registry where
  files : List OrgFile
  certs : List String
deriving DecidableEq

/-- Outcome of the check operation: success (exit 0 with a success
message), empty-registry warning (exit 0 after a warning), or termination
on the first violation. -/
inductive CheckResult
  | success
  | emptyWarning
  | failed (e : CheckError)
deriving DecidableEq

/-- Kind of the error of a failed result, when there is one. -/
def CheckResult.errKind : CheckResult → Option ErrKind
  | .failed e => some e.kind
  | _ => none

/-- Model of checkRegistry / checkOrganizations: assemble the registry,
warn and exit zero when it is empty, then run the nebula checker and the
telephony checker in that order. -/
def checkRegistry (r : Registry) : CheckResult :=
  match assembleOrgs [] r.files with
  | .error e => .failed e
  | .ok m =>
    if m.length = 0 then .emptyWarning
    else
      match checkNebulaOrgs r.certs [] (m.map fun kv => kv.2) with
      | .error e => .failed e
      | .ok _ =>
        match checkTelephonyOrgs [] (m.map fun kv => kv.2) with
        | .error e => .failed e
        | .ok _ => .success

/-! ## Telephony Directory Builder (generate-telephony) -/

/-- One exchange entry of the generated directory. -/
structure TelephonyDirectoryExchange where
  codecs : List String
  endpoint : String
  id : String
  prefixes : List String
  protocol : String
deriving DecidableEq

/-- One organization entry of the generated directory. -/
structure TelephonyDirectoryOrg where
  exchanges : List TelephonyDirectoryExchange
  name : String
  orgId : String
  phonebooks : List String
deriving DecidableEq

/-- The exchangePrefixes multimap: for each prefix binding, add the prefix
to the set stored under its exchange id. -/
def buildPfxMap (ps : List PrefixEntry) : List (String × List String) :=
  ps.foldl (fun m p => jsMapSet m p.exchange (setAdd ((jsMapGet m p.exchange).getD []) p.pfx)) []

/-- The directory entry built for one declared exchange: its codecs,
address and protocol plus the prefix set resolved from the multimap
(empty when no prefix references the exchange). -/
def mkDirExchange (pm : List (String × List String)) (e : TelephonyExchange) : TelephonyDirectoryExchange :=
  { codecs := e.codecs
    endpoint := e.address
    id := e.id
    prefixes := (jsMapGet pm e.id).getD []
    protocol := e.protocol }

/-- The exchanges Map of the builder, keyed by exchange id. -/
def buildExchangeMap (pm : List (String × List String)) (es : List TelephonyExchange) : List (String × TelephonyDirectoryExchange) :=
  es.foldl (fun m e => jsMapSet m e.id (mkDirExchange pm e)) []

/-- Model of the per-organization body of generateTelephonyDirectory:
organizations without a telephony service produce no entry. -/
def generateOrgEntry (org : Organization) : Option TelephonyDirectoryOrg :=
  match telephonyOf org with
  | none => none
  | some tel =>
    let pm := buildPfxMap (tel.prefixes.getD [])
    let em := buildExchangeMap pm (tel.exchanges.getD [])
    some
      { exchanges := em.map fun kv => kv.2
        name := org.spec.name
        orgId := org.spec.id
        phonebooks := tel.phonebook.getD [] }

/-- Model of generateTelephonyDirectory: the records of the registry in
glob order, projected to directory entries.  The generate command runs no
consistency checks, so the input is the raw parsed record list. -/
def generateTelephonyDirectory (orgs : List Organization) : List TelephonyDirectoryOrg :=
  orgs.filterMap generateOrgEntry

/-! ## Derived predicates used by the theorems -/

/-- An address lies in the fixed overlay block: it parses as an IPv6
literal whose first 64 bits agree with the fixed CIDR. -/
def inBlockB (a : String) : Bool :=
  match ipaddrParse a with
  | some (.v6 g) => matchCIDR g hackfedCidrParts.1 16 hackfedCidrParts.2
  | _ => false

/-- An endpoint passes the lighthouse URL check. -/
def endpointOkB (ep : String) : Bool :=
  match urlPortOf ep with
  | some (some _) => true
  | _ => false

/-- A node passes every per-node nebula check other than the duplicate
test: in-block address, all certificates present, all endpoints valid. -/
def nodeOkB (certs : List String) (n : NebulaNode) : Bool :=
  inBlockB n.address
    && n.certificates.all (fun fp => certs.contains fp)
    && ((n.lighthouse.bind Lighthouse.endpoints).getD []).all endpointOkB

/-- Addresses of the nebula nodes an organization declares. -/
def orgAddresses (o : Organization) : List String :=
  ((nebulaNodesOf o).getD []).map NebulaNode.address

/-- An organization declares a prefix whose exchange reference names no
exchange of the same organization. -/
def danglingB (o : Organization) : Bool :=
  match telephonyOf o with
  | none => false
  | some tel =>
    (tel.prefixes.getD []).any fun p =>
      !((tel.exchanges.getD []).map TelephonyExchange.id).contains p.exchange

/-- Keeps the first occurrence of every element, dropping later
repetitions (first-occurrence deduplication, the order a JavaScript Map
keeps its keys in). -/
def firstDedup : List String → List String
  | [] => []
  | a :: l => a :: (firstDedup l).filter fun x => !decide (x = a)

/-! ## Concrete registries used by the theorems -/

/-- Record with the given version, metadata id, spec id and services. -/
def mkOrg (ver oid sid : String) (sv : Option Services) : Organization :=
  { apiVersion := ver, metadata := { orgId := oid }
    spec := { id := sid, name := "Example Org", services := sv } }

/-- Services block with a telephony service only. -/
def telOnly (exs : List TelephonyExchange) (ps : List PrefixEntry) : Option Services :=
  some { nebula := none
         telephony := some { exchanges := some exs, prefixes := some ps, phonebook := none } }

/-- Services block with a nebula service only. -/
def nebOnly (ns : List NebulaNode) : Option Services :=
  some { nebula := some ns, telephony := none }

/-- A plain nebula node with no certificates and no lighthouse. -/
def mkNode (addr : String) : NebulaNode :=
  { address := addr, certificates := [], lighthouse := none }

/-- A valid exchange on a host-with-port address. -/
def mkExchange (exId addr : String) (codecs : List String) (proto : String) : TelephonyExchange :=
  { id := exId, address := addr, codecs := codecs, protocol := proto }

/-! ## C5 -/

/-- C5: a registry directory with zero organization record files makes the
check operation warn and exit successfully; the result is produced before
the network and telephony checkers are applied (they only run in the
nonempty branch of checkRegistry), so it does not depend on the
certificate store either. -/
theorem check_empty_registry_warns_and_exits_zero :
    ∀ certs : List String, checkRegistry { files := [], certs := certs } = .emptyWarning :=
  fun _ => rfl

/-! ## C4 -/

/-- The registry exercising an unparseable nebula address. -/
def c4Registry : Registry :=
  { files := [ { fileName := "acme.yaml"
                 org := mkOrg "hackfed/v1" "acme" "acme" (nebOnly [mkNode "not-an-ip"]) } ]
    certs := [] }

/-- C4: on a node address that is not a parseable IP literal the check
operation dies from the exception ipaddr.parse throws (nothing in
checkNebulaService catches it), so the process terminates without the
violation being logged and without an InvalidAddressError: the reported
outcome is an uncaught exception whose isLogged is false. -/
theorem check_unparseable_address_uncaught :
    checkRegistry c4Registry
        = .failed (.uncaught "ipaddr: the address has neither IPv6 nor IPv4 format")
      ∧ (CheckError.uncaught "ipaddr: the address has neither IPv6 nor IPv4 format").isLogged
        = false := by
  constructor
  · rfl
  · rfl

/-! ## C1 -/

/-- A record carrying both an unsupported apiVersion and an identity
mismatch (its metadata orgId differs from the file base name). -/
def c1Registry : Registry :=
  { files := [ { fileName := "acme.yaml", org := mkOrg "hackfed/v2" "other" "other" none } ]
    certs := [] }

/-- C1 counterexample: for a record whose declared identifier differs from
its file base name but whose apiVersion is also unsupported, the check
operation reports UnsupportedVersionError, not IdentityMismatchError — the
apiVersion check runs first inside checkOrganization. -/
theorem check_version_reported_before_identity_cex :
    checkRegistry c1Registry = .failed (.unsupportedVersion "hackfed/v2")
      ∧ (CheckError.unsupportedVersion "hackfed/v2").kind ≠ ErrKind.identityMismatch := by
  constructor
  · rfl
  · decide

/-- C1 (amended): for a first record whose apiVersion is the supported
literal and whose declared identifier differs from the file base name or
whose spec identifier differs from its metadata identifier, the check
fails with IdentityMismatchError before any other check runs for that
file: the failure is independent of the rest of the registry, of the
record's services and of the certificate store. -/
theorem check_identity_mismatch_reported_first :
    ∀ (name : String) (org : Organization) (fs : List OrgFile) (certs : List String),
      org.apiVersion = "hackfed/v1" →
      (org.metadata.orgId ≠ stripExt name ∨ org.spec.id ≠ org.metadata.orgId) →
      ∃ e, checkRegistry { files := { fileName := name, org := org } :: fs, certs := certs }
              = .failed e
        ∧ e.kind = .identityMismatch := by
  intro name org fs certs hv hm
  by_cases h1 : org.metadata.orgId = stripExt name
  · have h2 : org.spec.id ≠ org.metadata.orgId := by
      rcases hm with hm | hm
      · exact absurd h1 hm
      · exact hm
    refine ⟨.identityMismatch (stripExt name) org.spec.id, ?_, rfl⟩
    have h3 : ¬(stripExt name = org.spec.id) := fun hh => h2 (hh.symm.trans h1.symm)
    simp [checkRegistry, assembleOrgs, checkOrganization, hv, h1, h3]
  · refine ⟨.identityMismatch (stripExt name) org.metadata.orgId, ?_, rfl⟩
    simp [checkRegistry, assembleOrgs, checkOrganization, hv, h1]

/-- C1 witness: the amended theorem applied to a concrete mismatching
record with a supported apiVersion. -/
theorem check_identity_mismatch_reported_first_witness :
    ∃ e, checkRegistry { files := [ { fileName := "acme.yaml"
                                      org := mkOrg "hackfed/v1" "other" "other" none } ]
                         certs := [] }
            = .failed e
      ∧ e.kind = .identityMismatch :=
  check_identity_mismatch_reported_first "acme.yaml" (mkOrg "hackfed/v1" "other" "other" none)
    [] [] rfl (Or.inl (by decide))

/-! ## C2 -/

/-- List membership phrased through the Bool contains used by the model. -/
theorem contains_true_iff {l : List String} {a : String} : l.contains a = true ↔ a ∈ l :=
  List.elem_iff

/-- The prefix loop over an appended list runs the first part, then the
second from the resulting sets. -/
theorem checkPrefixList_append (orgId : String) (ex : List String) (l₁ l₂ : List PrefixEntry) :
    ∀ g op, checkPrefixList orgId g op ex (l₁ ++ l₂)
      = match checkPrefixList orgId g op ex l₁ with
        | .error e => .error e
        | .ok gs => checkPrefixList orgId gs.1 gs.2 ex l₂ := by
  induction l₁ with
  | nil => intro g op; simp [checkPrefixList]
  | cons p rest ih =>
    intro g op
    simp only [List.cons_append, checkPrefixList]
    by_cases h1 : p.pfx ∈ g
    · simp [h1]
    · by_cases h2 : p.pfx ∈ op
      · simp [h1, h2]
      · by_cases h3 : p.exchange ∈ ex
        · simp [h1, h2, h3, ih]
        · simp [h1, h2, h3]

/-- Through the prefix loop, the organization-local set stays included in
the global set. -/
theorem checkPrefixList_local_subset (orgId : String) (ex : List String) (ps : List PrefixEntry) :
    ∀ g op g' op', checkPrefixList orgId g op ex ps = .ok (g', op') →
      (∀ x ∈ op, x ∈ g) → ∀ x ∈ op', x ∈ g' := by
  induction ps with
  | nil => intro g op g' op' h hsub; simp [checkPrefixList] at h; rw [← h.1, ← h.2]; exact hsub
  | cons p rest ih =>
    intro g op g' op' h hsub
    simp only [checkPrefixList] at h
    by_cases h1 : p.pfx ∈ g
    · simp [h1] at h
    · by_cases h2 : p.pfx ∈ op
      · simp [h1, h2] at h
      · by_cases h3 : p.exchange ∈ ex
        · simp [h1, h2, h3] at h
          refine ih _ _ _ _ h ?_
          intro x hx
          rcases List.mem_append.mp hx with hx | hx
          · exact List.mem_append.mpr (Or.inl (hsub x hx))
          · exact List.mem_append.mpr (Or.inr hx)
        · simp [h1, h2, h3] at h

/-- The registry whose single organization declares the prefix 555 twice. -/
def c2Registry : Registry :=
  { files := [ { fileName := "acme.yaml"
                 org := mkOrg "hackfed/v1" "acme" "acme"
                   (telOnly [mkExchange "ex1" "10.0.0.1:5060" [] "sip"]
                     [ { pfx := "555", exchange := "ex1" },
                       { pfx := "555", exchange := "ex1" } ]) } ]
    certs := [] }

/-- C2 counterexample: when one organization declares the same prefix on
two of its own entries (no other organization present), the check fails
with DuplicateGlobalPrefixError — the first occurrence was already added
to the global set — not with the within-organization error the claim
names. -/
theorem check_own_duplicate_is_global_error_cex :
    checkRegistry c2Registry = .failed (.duplicateGlobalPfx "acme" "555")
      ∧ (CheckError.duplicateGlobalPfx "acme" "555").kind ≠ ErrKind.duplicateLocalPfx := by
  constructor
  · rfl
  · decide

/-- C2 (amended): a prefix the organization itself declared earlier is
caught by the global-set test, so the duplicate is reported as
DuplicateGlobalPrefixError: whenever the loop has processed a list l₁ of
entries (starting from a local set included in the global one, as every
organization does) and some later entry repeats a prefix from the local
set built so far, the loop fails with the global-duplicate error on that
entry.  The local-duplicate error can never be reached. -/
theorem check_own_duplicate_reported_as_global :
    ∀ (orgId : String) (ex : List String) (g op : List String) (l₁ l₂ : List PrefixEntry)
      (q : PrefixEntry) (g' op' : List String),
      (∀ x ∈ op, x ∈ g) →
      checkPrefixList orgId g op ex l₁ = .ok (g', op') →
      q.pfx ∈ op' →
      checkPrefixList orgId g op ex (l₁ ++ q :: l₂)
        = .error (.duplicateGlobalPfx orgId q.pfx) := by
  intro orgId ex g op l₁ l₂ q g' op' hsub h1 hq
  have hglobal : q.pfx ∈ g' :=
    checkPrefixList_local_subset orgId ex l₁ g op g' op' h1 hsub q.pfx hq
  rw [checkPrefixList_append, h1]
  simp [checkPrefixList, hglobal]

/-- C2 witness: the amended theorem applied to the concrete duplicate
registry's prefix list. -/
theorem check_own_duplicate_reported_as_global_witness :
    checkPrefixList "acme" [] [] ["ex1"]
        ([ { pfx := "555", exchange := "ex1" } ] ++ { pfx := "555", exchange := "ex1" } :: [])
      = .error (.duplicateGlobalPfx "acme" "555") :=
  check_own_duplicate_reported_as_global "acme" ["ex1"] [] []
    [ { pfx := "555", exchange := "ex1" } ] [] { pfx := "555", exchange := "ex1" }
    ["555"] ["555"] (by simp) (by rfl) (by decide)

/-! ## C3 and C8: JavaScript Map lemmas for the directory builder -/

/-- Setting a key that is present keeps the key list; a fresh key is
appended. -/
theorem jsMapSet_keys {α : Type} (m : List (String × α)) (k : String) (v : α) :
    (jsMapSet m k v).map Prod.fst
      = if k ∈ m.map Prod.fst then m.map Prod.fst else m.map Prod.fst ++ [k] := by
  unfold jsMapSet
  by_cases h : m.any fun kv => kv.1 == k
  · have hmem : k ∈ m.map Prod.fst := by
      rcases List.any_eq_true.mp h with ⟨kv, hkv, hb⟩
      exact List.mem_map.mpr ⟨kv, hkv, eq_of_beq hb⟩
    rw [if_pos h, if_pos hmem, List.map_map]
    apply List.map_congr_left
    intro kv _
    by_cases hk : kv.1 = k
    · simp [hk]
    · simp [hk]
  · have hmem : k ∉ m.map Prod.fst := by
      intro hk
      rcases List.mem_map.mp hk with ⟨kv, hkv, hfk⟩
      apply h
      exact List.any_eq_true.mpr ⟨kv, hkv, beq_iff_eq.mpr hfk⟩
    rw [if_neg h, if_neg hmem, List.map_append]
    rfl

/-- Every pair of the updated map is the new binding or a pair of the old
map. -/
theorem mem_jsMapSet {α : Type} {m : List (String × α)} {k : String} {v : α}
    {kv : String × α} (h : kv ∈ jsMapSet m k v) : kv = (k, v) ∨ kv ∈ m := by
  unfold jsMapSet at h
  by_cases hany : m.any fun x => x.1 == k
  · rw [if_pos hany] at h
    rcases List.mem_map.mp h with ⟨x, hx, hfx⟩
    by_cases hxk : x.1 = k
    · left; rw [← hfx]; simp [hxk]
    · right; rw [← hfx]; simp [hxk]; exact hx
  · rw [if_neg hany] at h
    rcases List.mem_append.mp h with h | h
    · right; exact h
    · left; simpa using h

/-- Replacing the binding of one key does not change which pair a search
for a different key finds. -/
theorem find?_key_map_replace {α : Type} (k k' : String) (v : α) (h : k' ≠ k) :
    ∀ tl : List (String × α),
      List.find? (fun kv => kv.1 == k') (tl.map fun kv => if kv.1 == k then (k, v) else kv)
        = List.find? (fun kv => kv.1 == k') tl := by
  intro tl
  induction tl with
  | nil => rfl
  | cons kv tl ih =>
    simp only [List.map_cons, List.find?_cons]
    by_cases hk : kv.1 = k
    · rw [if_pos (beq_iff_eq.mpr hk)]
      have h1 : ((k, v).1 == k') = false := beq_eq_false_iff_ne.mpr (Ne.symm h)
      have h2 : (kv.1 == k') = false := by
        apply beq_eq_false_iff_ne.mpr
        rw [hk]
        exact Ne.symm h
      rw [h1, h2]
      exact ih
    · rw [if_neg (fun hh => hk (eq_of_beq hh))]
      by_cases hk' : kv.1 = k'
      · rw [beq_iff_eq.mpr hk']
      · rw [beq_eq_false_iff_ne.mpr hk']
        exact ih

/-- Reading a key other than the one just written is unchanged. -/
theorem jsMapGet_jsMapSet_ne {α : Type} (m : List (String × α)) (k k' : String) (v : α)
    (h : k' ≠ k) : jsMapGet (jsMapSet m k v) k' = jsMapGet m k' := by
  unfold jsMapSet jsMapGet
  by_cases hany : m.any fun x => x.1 == k
  · rw [if_pos hany, find?_key_map_replace k k' v h m]
  · rw [if_neg hany, List.find?_append]
    have hlast : List.find? (fun kv => kv.1 == k') [(k, v)] = none := by
      simp [List.find?_cons, Ne.symm h]
    rw [hlast]
    cases m.find? fun kv => kv.1 == k' <;> rfl

/-- First-occurrence deduplication commutes with filtering. -/
theorem firstDedup_filter (p : String → Bool) :
    ∀ l : List String, firstDedup (l.filter p) = (firstDedup l).filter p := by
  intro l
  induction l with
  | nil => rfl
  | cons a l ih =>
    by_cases hp : p a
    · rw [List.filter_cons_of_pos hp]
      simp only [firstDedup, ih, List.filter_cons_of_pos hp]
      rw [List.filter_filter, List.filter_filter]
      congr 1
      apply List.filter_congr
      intro x _
      rw [Bool.and_comm]
    · have hpa : p a = false := by
        cases hpab : p a
        · rfl
        · exact absurd hpab hp
      rw [List.filter_cons_of_neg hp]
      simp only [firstDedup, ih, List.filter_cons_of_neg hp]
      rw [List.filter_filter]
      apply List.filter_congr
      intro x _
      by_cases hx : x = a
      · rw [hx, hpa]
        simp
      · simp [hx]

/-- First-occurrence deduplication keeps exactly the elements of the
list. -/
theorem mem_firstDedup {x : String} : ∀ {l : List String}, x ∈ firstDedup l ↔ x ∈ l := by
  intro l
  induction l with
  | nil => simp [firstDedup]
  | cons a l ih =>
    by_cases hx : x = a
    · simp [firstDedup, hx]
    · simp [firstDedup, hx, List.mem_filter, ih]

/-- Keys of the builder's exchange Map: the declared ids not already
present, in first-declaration order, appended to the accumulator's keys. -/
theorem buildExchangeMap_keys_aux (pm : List (String × List String)) :
    ∀ (es : List TelephonyExchange) (m : List (String × TelephonyDirectoryExchange)),
      ((es.foldl (fun acc e => jsMapSet acc e.id (mkDirExchange pm e)) m).map Prod.fst)
        = m.map Prod.fst
          ++ firstDedup ((es.map TelephonyExchange.id).filter
              fun k => !decide (k ∈ m.map Prod.fst)) := by
  intro es
  induction es with
  | nil => intro m; simp [firstDedup]
  | cons e rest ih =>
    intro m
    simp only [List.foldl_cons, List.map_cons]
    rw [ih]
    rw [jsMapSet_keys]
    by_cases hk : e.id ∈ m.map Prod.fst
    · rw [if_pos hk, List.filter_cons_of_neg (by simp [hk])]
    · rw [if_neg hk, List.filter_cons_of_pos (by simp [hk])]
      simp only [firstDedup, List.map_append, List.append_assoc, List.cons_append,
        List.nil_append]
      congr 1
      congr 1
      have hsplit : (fun k => !decide (k ∈ m.map Prod.fst ++ [e.id]))
          = fun k => (!decide (k = e.id)) && (!decide (k ∈ m.map Prod.fst)) := by
        funext k
        by_cases h1 : k = e.id <;> by_cases h2 : k ∈ m.map Prod.fst <;>
          simp [h1, h2]
      rw [hsplit, ← List.filter_filter, firstDedup_filter]

/-- Every pair of the builder's exchange Map that is not in the
accumulator is the binding of some declared exchange under its id. -/
theorem mem_buildExchangeMap_aux (pm : List (String × List String)) :
    ∀ (es : List TelephonyExchange) (m : List (String × TelephonyDirectoryExchange))
      (kv : String × TelephonyDirectoryExchange),
      kv ∈ es.foldl (fun acc e => jsMapSet acc e.id (mkDirExchange pm e)) m →
      kv ∈ m ∨ ∃ e ∈ es, kv = (e.id, mkDirExchange pm e) := by
  intro es
  induction es with
  | nil => intro m kv h; exact Or.inl h
  | cons e rest ih =>
    intro m kv h
    simp only [List.foldl_cons] at h
    rcases ih _ kv h with h' | ⟨e', he', hkv⟩
    · rcases mem_jsMapSet h' with h'' | h''
      · exact Or.inr ⟨e, List.mem_cons_self e rest, h''⟩
      · exact Or.inl h''
    · exact Or.inr ⟨e', List.mem_cons_of_mem e he', hkv⟩

/-- A prefix map key never written reads as none. -/
theorem buildPfxMap_get_none (ps : List PrefixEntry) (exId : String)
    (h : ∀ p ∈ ps, p.exchange ≠ exId) :
    jsMapGet (buildPfxMap ps) exId = none := by
  have aux : ∀ m : List (String × List String), jsMapGet m exId = none →
      jsMapGet (ps.foldl
          (fun m p => jsMapSet m p.exchange (setAdd ((jsMapGet m p.exchange).getD []) p.pfx)) m)
        exId = none := by
    induction ps with
    | nil => intro m hm; exact hm
    | cons p rest ih =>
      intro m hm
      simp only [List.foldl_cons]
      refine ih (fun q hq => h q (List.mem_cons_of_mem p hq)) _ ?_
      rw [jsMapGet_jsMapSet_ne]
      · exact hm
      · exact fun hh => h p (List.mem_cons_self p rest) hh.symm
  exact aux [] rfl

/-- The organization declaring the exchange id x twice (with y between). -/
def c3Org : Organization :=
  mkOrg "hackfed/v1" "acme" "acme"
    (telOnly [mkExchange "x" "10.0.0.1:5060" ["g711"] "sip",
              mkExchange "y" "10.0.0.2:5060" [] "sip",
              mkExchange "x" "10.0.0.3:5060" ["opus"] "sips"] [])

/-- The last declared exchange carrying a given id, if any. -/
def lastWith (k : String) : List TelephonyExchange → Option TelephonyExchange
  | [] => none
  | e :: rest =>
    match lastWith k rest with
    | some e' => some e'
    | none => if e.id = k then some e else none

/-- Searching a replaced map for the written key finds the new binding
whenever the key was present. -/
theorem find?_map_replace_self {α : Type} (k : String) (v : α) :
    ∀ m : List (String × α), (m.any fun x => x.1 == k) = true →
      List.find? (fun kv => kv.1 == k) (m.map fun kv => if kv.1 == k then (k, v) else kv)
        = some (k, v) := by
  intro m
  induction m with
  | nil => intro h; simp at h
  | cons kv tl ih =>
    intro h
    simp only [List.map_cons, List.find?_cons]
    by_cases hk : kv.1 = k
    · rw [if_pos (beq_iff_eq.mpr hk)]
      simp
    · have htl : (tl.any fun x => x.1 == k) = true := by
        rcases List.any_eq_true.mp h with ⟨x, hx, hxk⟩
        rcases List.mem_cons.mp hx with hx | hx
        · exact absurd (eq_of_beq hxk) (by rw [hx]; exact hk)
        · exact List.any_eq_true.mpr ⟨x, hx, hxk⟩
      rw [if_neg (fun hh => hk (eq_of_beq hh)), beq_eq_false_iff_ne.mpr hk]
      exact ih htl

/-- Reading the key just written returns the written value. -/
theorem jsMapGet_jsMapSet_self {α : Type} (m : List (String × α)) (k : String) (v : α) :
    jsMapGet (jsMapSet m k v) k = some v := by
  unfold jsMapSet jsMapGet
  by_cases hany : (m.any fun x => x.1 == k) = true
  · rw [if_pos hany, find?_map_replace_self k v m hany]
    rfl
  · rw [if_neg hany, List.find?_append]
    have hnone : List.find? (fun kv => kv.1 == k) m = none := by
      rw [List.find?_eq_none]
      intro x hx hxk
      exact hany (List.any_eq_true.mpr ⟨x, hx, hxk⟩)
    rw [hnone]
    simp [List.find?_cons]

/-- Reading the builder's exchange Map returns the entry built from the
last declaration carrying the key, when there is one. -/
theorem jsMapGet_buildExchangeMap (pm : List (String × List String)) :
    ∀ (es : List TelephonyExchange) (m : List (String × TelephonyDirectoryExchange))
      (k : String),
      jsMapGet (es.foldl (fun acc e => jsMapSet acc e.id (mkDirExchange pm e)) m) k
        = match lastWith k es with
          | some e => some (mkDirExchange pm e)
          | none => jsMapGet m k := by
  intro es
  induction es with
  | nil => intro m k; rfl
  | cons e rest ih =>
    intro m k
    simp only [List.foldl_cons, lastWith]
    rw [ih (jsMapSet m e.id (mkDirExchange pm e)) k]
    cases hl : lastWith k rest with
    | some e' => rfl
    | none =>
      by_cases hk : e.id = k
      · rw [if_pos hk]
        subst hk
        exact jsMapGet_jsMapSet_self m e.id _
      · rw [if_neg hk]
        exact jsMapGet_jsMapSet_ne m e.id k _ fun hh => hk hh.symm

/-- C3 counterexample: an organization declaring three exchanges, two of
which share the id x, yields a directory entry with only two exchange
entries — the Map keyed by exchange id collapses the duplicate — so the
directory does not contain one entry per declared exchange.  The full
output also shows the surviving x entry holding the position of the
first declaration with the codecs, address and protocol of the later
one. -/
theorem directory_collapses_duplicate_exchange_ids_cex :
    ((generateTelephonyDirectory [c3Org]).map fun o => o.exchanges.length) = [2]
      ∧ ((telephonyOf c3Org).map fun t => (t.exchanges.getD []).length) = some 3
      ∧ ((generateTelephonyDirectory [c3Org]).map fun o => o.exchanges)
        = [[ { codecs := ["opus"], endpoint := "10.0.0.3:5060", id := "x"
               prefixes := [], protocol := "sips" },
             { codecs := [], endpoint := "10.0.0.2:5060", id := "y"
               prefixes := [], protocol := "sip" } ]] := by
  refine ⟨rfl, rfl, rfl⟩

/-- C3 (amended): for every organization that declares a telephony
service, the generated directory holds one entry for it whose exchange
entries are keyed by distinct exchange ids: exactly one entry per
distinct declared exchange id, in order of first declaration; and for
every id, the entry carries the attributes (codecs, address, protocol)
of the last declaration with that id — so a repeated id keeps the first
declaration's position while the later declaration's attributes win. -/
theorem directory_one_entry_per_distinct_exchange_id :
    ∀ (orgs : List Organization) (org : Organization) (tel : TelephonyService),
      org ∈ orgs → telephonyOf org = some tel →
      ∃ d ∈ generateTelephonyDirectory orgs,
        d.orgId = org.spec.id ∧ d.name = org.spec.name ∧
        d.exchanges.map TelephonyDirectoryExchange.id
          = firstDedup ((tel.exchanges.getD []).map TelephonyExchange.id) ∧
        ∀ (k : String) (e : TelephonyExchange),
          lastWith k (tel.exchanges.getD []) = some e →
          ∃ entry ∈ d.exchanges, entry.id = e.id ∧ entry.codecs = e.codecs
            ∧ entry.endpoint = e.address ∧ entry.protocol = e.protocol := by
  intro orgs org tel horg ht
  refine ⟨{ exchanges := (buildExchangeMap (buildPfxMap (tel.prefixes.getD []))
              (tel.exchanges.getD [])).map fun kv => kv.2
            name := org.spec.name
            orgId := org.spec.id
            phonebooks := tel.phonebook.getD [] }, ?_, rfl, rfl, ?_, ?_⟩
  · apply List.mem_filterMap.mpr
    exact ⟨org, horg, by simp [generateOrgEntry, ht]⟩
  · simp only [List.map_map]
    have hvals : ((buildExchangeMap (buildPfxMap (tel.prefixes.getD []))
          (tel.exchanges.getD [])).map
            (TelephonyDirectoryExchange.id ∘ fun kv => kv.2))
        = (buildExchangeMap (buildPfxMap (tel.prefixes.getD []))
            (tel.exchanges.getD [])).map Prod.fst := by
      apply List.map_congr_left
      intro kv hkv
      rcases mem_buildExchangeMap_aux _ _ _ kv hkv with h | ⟨e, _, hkv'⟩
      · exact absurd h (List.not_mem_nil kv)
      · rw [hkv']
        rfl
    rw [hvals]
    unfold buildExchangeMap
    rw [buildExchangeMap_keys_aux]
    simp
  · intro k e hle
    have hg : jsMapGet (buildExchangeMap (buildPfxMap (tel.prefixes.getD []))
          (tel.exchanges.getD [])) k
        = some (mkDirExchange (buildPfxMap (tel.prefixes.getD [])) e) := by
      unfold buildExchangeMap
      rw [jsMapGet_buildExchangeMap (buildPfxMap (tel.prefixes.getD []))
        (tel.exchanges.getD []) [] k, hle]
    unfold jsMapGet at hg
    cases hf : List.find? (fun kv => kv.1 == k)
        (buildExchangeMap (buildPfxMap (tel.prefixes.getD [])) (tel.exchanges.getD [])) with
    | none => rw [hf] at hg; exact absurd hg (by simp)
    | some kv =>
      rw [hf] at hg
      have hkv2 : kv.2 = mkDirExchange (buildPfxMap (tel.prefixes.getD [])) e := by
        simpa using hg
      have hmem := List.mem_of_find?_eq_some hf
      refine ⟨kv.2, List.mem_map.mpr ⟨kv, hmem, rfl⟩, ?_, ?_, ?_, ?_⟩ <;>
        · rw [hkv2]
          rfl

/-- The telephony service of the duplicate-id organization. -/
def c3Tel : TelephonyService :=
  { exchanges := some [mkExchange "x" "10.0.0.1:5060" ["g711"] "sip",
      mkExchange "y" "10.0.0.2:5060" [] "sip",
      mkExchange "x" "10.0.0.3:5060" ["opus"] "sips"]
    prefixes := some []
    phonebook := none }

/-- C3 witness: the amended theorem applied to the duplicate-id
organization, covering both the id-list clause and the
last-declaration-wins attribute clause. -/
theorem directory_one_entry_per_distinct_id_witness :
    ∃ d ∈ generateTelephonyDirectory [c3Org],
      d.orgId = c3Org.spec.id ∧ d.name = c3Org.spec.name ∧
      d.exchanges.map TelephonyDirectoryExchange.id
        = firstDedup ((c3Tel.exchanges.getD []).map TelephonyExchange.id) ∧
      ∀ (k : String) (e : TelephonyExchange),
        lastWith k (c3Tel.exchanges.getD []) = some e →
        ∃ entry ∈ d.exchanges, entry.id = e.id ∧ entry.codecs = e.codecs
          ∧ entry.endpoint = e.address ∧ entry.protocol = e.protocol :=
  directory_one_entry_per_distinct_exchange_id [c3Org] c3Org c3Tel
    (List.mem_singleton.mpr rfl) rfl

/-- C8: for every organization with a telephony service, every declared
exchange that no prefix of that organization references still appears in
the generated directory, as an entry with an empty prefix list. -/
theorem unreferenced_exchange_kept_with_empty_routes :
    ∀ (orgs : List Organization) (org : Organization) (tel : TelephonyService)
      (ex : TelephonyExchange),
      org ∈ orgs → telephonyOf org = some tel → ex ∈ tel.exchanges.getD [] →
      (∀ p ∈ tel.prefixes.getD [], p.exchange ≠ ex.id) →
      ∃ d ∈ generateTelephonyDirectory orgs, d.orgId = org.spec.id ∧
        ∃ entry ∈ d.exchanges, entry.id = ex.id ∧ entry.prefixes = [] := by
  intro orgs org tel ex horg ht hex hnoref
  refine ⟨{ exchanges := (buildExchangeMap (buildPfxMap (tel.prefixes.getD []))
              (tel.exchanges.getD [])).map fun kv => kv.2
            name := org.spec.name
            orgId := org.spec.id
            phonebooks := tel.phonebook.getD [] }, ?_, rfl, ?_⟩
  · apply List.mem_filterMap.mpr
    exact ⟨org, horg, by simp [generateOrgEntry, ht]⟩
  · have hkey : ex.id ∈ (buildExchangeMap (buildPfxMap (tel.prefixes.getD []))
        (tel.exchanges.getD [])).map Prod.fst := by
      unfold buildExchangeMap
      rw [buildExchangeMap_keys_aux]
      simp only [List.map_nil, List.nil_append]
      rw [mem_firstDedup]
      exact List.mem_filter.mpr ⟨List.mem_map.mpr ⟨ex, hex, rfl⟩, by simp⟩
    rcases List.mem_map.mp hkey with ⟨kv, hkv, hfst⟩
    rcases mem_buildExchangeMap_aux _ _ _ kv hkv with h | ⟨e, _, hkve⟩
    · exact absurd h (List.not_mem_nil kv)
    · refine ⟨kv.2, List.mem_map.mpr ⟨kv, hkv, rfl⟩, ?_, ?_⟩
      · rw [hkve]
        rw [hkve] at hfst
        exact hfst
      · rw [hkve]
        have heid : e.id = ex.id := by rw [hkve] at hfst; exact hfst
        show (jsMapGet (buildPfxMap (tel.prefixes.getD [])) e.id).getD [] = []
        rw [heid, buildPfxMap_get_none _ _ hnoref]
        rfl

/-- The organization whose exchange ex2 is referenced by no prefix. -/
def c8Org : Organization :=
  mkOrg "hackfed/v1" "acme" "acme"
    (telOnly [mkExchange "ex1" "10.0.0.1:5060" [] "sip",
              mkExchange "ex2" "10.0.0.2:5060" [] "sip"]
      [ { pfx := "1", exchange := "ex1" } ])

/-- C8 witness: the theorem applied to an organization whose second
exchange is referenced by no prefix. -/
theorem unreferenced_exchange_kept_witness :
    ∃ d ∈ generateTelephonyDirectory [c8Org], d.orgId = c8Org.spec.id ∧
      ∃ entry ∈ d.exchanges, entry.id = (mkExchange "ex2" "10.0.0.2:5060" [] "sip").id
        ∧ entry.prefixes = [] :=
  unreferenced_exchange_kept_with_empty_routes [c8Org] c8Org
    { exchanges := some [mkExchange "ex1" "10.0.0.1:5060" [] "sip",
        mkExchange "ex2" "10.0.0.2:5060" [] "sip"]
      prefixes := some [ { pfx := "1", exchange := "ex1" } ]
      phonebook := none }
    (mkExchange "ex2" "10.0.0.2:5060" [] "sip")
    (List.mem_singleton.mpr rfl) rfl (by simp) (by decide)

/-! ## C9: the assembler never overwrites when ids come from distinct files -/

/-- Stripping the extension of a name of the form base ++ ".yaml" gives
the base. -/
theorem stripExt_append_yaml (b : String) : stripExt (b ++ ".yaml") = b := by
  unfold stripExt
  have hdata : (b ++ ".yaml").data = b.data ++ ".yaml".data := rfl
  rw [hdata]
  have h5 : ".yaml".data.length = 5 := rfl
  have hlen : (b.data ++ ".yaml".data).length - 5 = b.data.length := by
    rw [List.length_append, h5]
    omega
  rw [hlen, List.drop_left, if_pos rfl, List.take_left]

/-- A successful load fixes the record's identifiers: the returned record
is the input, its metadata orgId is the file base name and its spec id
agrees. -/
theorem checkOrganization_ok_facts {fp : String} {o o' : Organization}
    (h : checkOrganization fp o = .ok o') :
    o' = o ∧ o.metadata.orgId = stripExt fp ∧ o.spec.id = o.metadata.orgId := by
  unfold checkOrganization at h
  by_cases h1 : o.apiVersion = "hackfed/v1"
  · rw [if_neg (fun hh => hh h1)] at h
    by_cases h2 : o.metadata.orgId = stripExt fp
    · rw [if_neg (fun hh => hh h2)] at h
      by_cases h3 : o.metadata.orgId = o.spec.id
      · rw [if_neg (fun hh => hh h3)] at h
        exact ⟨(Except.ok.inj h).symm, h2, h3.symm⟩
      · rw [if_pos h3] at h
        exact absurd h (by simp)
    · rw [if_pos h2] at h
      exact absurd h (by simp)
  · rw [if_pos h1] at h
    exact absurd h (by simp)

/-- Setting a key absent from the map appends the binding. -/
theorem jsMapSet_append_of_not_mem {α : Type} {m : List (String × α)} {k : String} (v : α)
    (h : k ∉ m.map Prod.fst) : jsMapSet m k v = m ++ [(k, v)] := by
  unfold jsMapSet
  rw [if_neg]
  intro hany
  rcases List.any_eq_true.mp hany with ⟨kv, hkv, hb⟩
  exact h (List.mem_map.mpr ⟨kv, hkv, eq_of_beq hb⟩)

/-- When the base names of the remaining files are mutually distinct and
fresh for the accumulated map, assembly appends one binding per file. -/
theorem assembleOrgs_ok_retains :
    ∀ (files : List OrgFile) (m m' : OrganizationMap),
      assembleOrgs m files = .ok m' →
      (∀ f ∈ files, stripExt f.fileName ∉ m.map Prod.fst) →
      ((files.map fun f => stripExt f.fileName).Nodup) →
      m' = m ++ files.map fun f => (stripExt f.fileName, f.org) := by
  intro files
  induction files with
  | nil =>
    intro m m' h _ _
    simp only [assembleOrgs] at h
    simp [← Except.ok.inj h]
  | cons f rest ih =>
    intro m m' h hfresh hnodup
    simp only [assembleOrgs] at h
    cases hc : checkOrganization f.fileName f.org with
    | error e => rw [hc] at h; exact absurd h (by simp)
    | ok org =>
      rw [hc] at h
      rcases checkOrganization_ok_facts hc with ⟨horg, hmeta, hspec⟩
      subst horg
      have hkey : f.org.spec.id = stripExt f.fileName := hspec.trans hmeta
      have h2 : assembleOrgs (jsMapSet m f.org.spec.id f.org) rest = Except.ok m' := h
      rw [hkey, jsMapSet_append_of_not_mem f.org
        (hfresh f (List.mem_cons_self f rest))] at h2
      have hrest := ih (m ++ [(stripExt f.fileName, f.org)]) m' h2 ?_ (List.Nodup.of_cons hnodup)
      · rw [hrest, List.map_cons, List.append_assoc]
        rfl
      · intro g hg
        rw [List.map_append, List.mem_append]
        rintro (hgm | hgk)
        · exact hfresh g (List.mem_cons_of_mem f hg) hgm
        · have : stripExt g.fileName = stripExt f.fileName := by simpa using hgk
          have hne := (List.nodup_cons.mp hnodup).1
          apply hne
          show stripExt f.fileName ∈ List.map (fun f => stripExt f.fileName) rest
          rw [← this]
          exact List.mem_map.mpr ⟨g, hg, rfl⟩

/-- C9: because every loaded record's id equals its file base name and
distinct *.yaml files of one directory have pairwise distinct base names,
a successful assembly never overwrites a map entry: it produces exactly
one entry per loaded file, and every loaded record is retained under its
base name. -/
theorem assembly_retains_every_record :
    ∀ (files : List OrgFile) (m' : OrganizationMap),
      (files.map OrgFile.fileName).Nodup →
      (∀ f ∈ files, ∃ b, f.fileName = b ++ ".yaml") →
      assembleOrgs [] files = .ok m' →
      m'.length = files.length
        ∧ ∀ f ∈ files, (stripExt f.fileName, f.org) ∈ m' := by
  intro files m' hnodup hyaml h
  have hinj : ∀ x ∈ files, ∀ y ∈ files,
      stripExt x.fileName = stripExt y.fileName → x.fileName = y.fileName := by
    intro x hx y hy hst
    rcases hyaml x hx with ⟨bx, hbx⟩
    rcases hyaml y hy with ⟨by', hby⟩
    rw [hbx, hby, stripExt_append_yaml, stripExt_append_yaml] at hst
    rw [hbx, hby, hst]
  have hbase : (files.map fun f => stripExt f.fileName).Nodup := by
    have : (files.map fun f => stripExt f.fileName)
        = (files.map OrgFile.fileName).map stripExt := by
      rw [List.map_map]
      rfl
    rw [this]
    apply List.Nodup.map_on ?_ hnodup
    intro x hx y hy hxy
    rcases List.mem_map.mp hx with ⟨fx, hfx, hfx'⟩
    rcases List.mem_map.mp hy with ⟨fy, hfy, hfy'⟩
    rw [← hfx', ← hfy'] at hxy ⊢
    exact hinj fx hfx fy hfy hxy
  have heq := assembleOrgs_ok_retains files [] m' h (by simp) hbase
  rw [heq]
  constructor
  · simp
  · intro f hf
    simp only [List.nil_append]
    exact List.mem_map.mpr ⟨f, hf, rfl⟩

/-- The two concrete record files used by the C9 witness. -/
def c9Files : List OrgFile :=
  [ { fileName := "alpha.yaml", org := mkOrg "hackfed/v1" "alpha" "alpha" none },
    { fileName := "beta.yaml", org := mkOrg "hackfed/v1" "beta" "beta" none } ]

/-- The map the two files assemble into. -/
def c9Map : OrganizationMap :=
  [ ("alpha", mkOrg "hackfed/v1" "alpha" "alpha" none),
    ("beta", mkOrg "hackfed/v1" "beta" "beta" none) ]

/-- C9 witness: the theorem applied to two concrete record files, which
assemble to a two-entry map retaining both records. -/
theorem assembly_retains_every_record_witness :
    c9Map.length = c9Files.length ∧ ∀ f ∈ c9Files, (stripExt f.fileName, f.org) ∈ c9Map :=
  assembly_retains_every_record c9Files c9Map (by decide)
    (by
      intro f hf
      rcases List.mem_cons.mp hf with h | hf2
      · exact ⟨"alpha", by rw [h]; decide⟩
      · rcases List.mem_cons.mp hf2 with h | h
        · exact ⟨"beta", by rw [h]; decide⟩
        · exact absurd h (List.not_mem_nil f))
    (by rfl)

/-! ## C6 and C10: nebula checker lemmas -/

/-- The assembled map of a registry whose files are distinct *.yaml files:
one entry per file, in order, keyed by base name. -/
theorem assembleOrgs_yaml_eq (files : List OrgFile) (m' : OrganizationMap)
    (hnodup : (files.map OrgFile.fileName).Nodup)
    (hyaml : ∀ f ∈ files, ∃ b, f.fileName = b ++ ".yaml")
    (h : assembleOrgs [] files = .ok m') :
    m' = files.map fun f => (stripExt f.fileName, f.org) := by
  have hinj : ∀ x ∈ files, ∀ y ∈ files,
      stripExt x.fileName = stripExt y.fileName → x.fileName = y.fileName := by
    intro x hx y hy hst
    rcases hyaml x hx with ⟨bx, hbx⟩
    rcases hyaml y hy with ⟨by', hby⟩
    rw [hbx, hby, stripExt_append_yaml, stripExt_append_yaml] at hst
    rw [hbx, hby, hst]
  have hbase : (files.map fun f => stripExt f.fileName).Nodup := by
    have hmm : (files.map fun f => stripExt f.fileName)
        = (files.map OrgFile.fileName).map stripExt := by
      rw [List.map_map]
      rfl
    rw [hmm]
    apply List.Nodup.map_on ?_ hnodup
    intro x hx y hy hxy
    rcases List.mem_map.mp hx with ⟨fx, hfx, hfx'⟩
    rcases List.mem_map.mp hy with ⟨fy, hfy, hfy'⟩
    rw [← hfx', ← hfy'] at hxy ⊢
    exact hinj fx hfx fy hfy hxy
  have heq := assembleOrgs_ok_retains files [] m' h (by simp) hbase
  rw [heq, List.nil_append]

/-- A node that passes the per-node checks: its address is in the block,
it gets appended to the set, and it was not seen before. -/
theorem checkNode_ok_facts {certs : List String} {orgId : String} {seen s' : List String}
    {n : NebulaNode} (h : checkNode certs orgId seen n = .ok s') :
    s' = seen ++ [n.address] ∧ n.address ∉ seen ∧ inBlockB n.address = true := by
  unfold checkNode at h
  cases hp : ipaddrParse n.address with
  | none => rw [hp] at h; exact absurd h (by simp)
  | some ip =>
    rw [hp] at h
    cases ip with
    | v4 o => exact absurd h (by simp [ipMatch])
    | v6 g =>
      simp only [ipMatch] at h
      cases hm : matchCIDR g hackfedCidrParts.1 16 hackfedCidrParts.2 with
      | false => rw [hm] at h; exact absurd h (by simp)
      | true =>
        rw [hm] at h
        simp only [Bool.not_true] at h
        rw [if_neg (by simp)] at h
        by_cases hseen : seen.contains n.address
        · rw [if_pos hseen] at h; exact absurd h (by simp)
        · rw [if_neg hseen] at h
          cases hcerts : checkCerts certs orgId n.certificates with
          | error e => rw [hcerts] at h; exact absurd h (by simp)
          | ok u =>
            rw [hcerts] at h
            cases heps : checkEndpoints orgId ((n.lighthouse.bind Lighthouse.endpoints).getD []) with
            | error e => rw [heps] at h; exact absurd h (by simp)
            | ok u' =>
              rw [heps] at h
              refine ⟨(Except.ok.inj h).symm, ?_, ?_⟩
              · intro hmem
                exact hseen (contains_true_iff.mpr hmem)
              · unfold inBlockB
                rw [hp]
                exact hm

/-- A successful node loop appends exactly the node addresses and keeps
the set duplicate free. -/
theorem checkNodes_ok_facts {certs : List String} {orgId : String} :
    ∀ (ns : List NebulaNode) (seen s' : List String),
      checkNodes certs orgId seen ns = .ok s' →
      s' = seen ++ ns.map NebulaNode.address ∧ (seen.Nodup → s'.Nodup)
        ∧ ∀ n ∈ ns, inBlockB n.address = true := by
  intro ns
  induction ns with
  | nil =>
    intro seen s' h
    simp only [checkNodes] at h
    refine ⟨by simp [← Except.ok.inj h], fun hs => ?_, by simp⟩
    rw [← Except.ok.inj h]
    exact hs
  | cons n rest ih =>
    intro seen s' h
    simp only [checkNodes] at h
    cases hn : checkNode certs orgId seen n with
    | error e => rw [hn] at h; exact absurd h (by simp)
    | ok s1 =>
      rw [hn] at h
      rcases checkNode_ok_facts hn with ⟨hs1, hfresh, hblock⟩
      rcases ih s1 s' h with ⟨heq, hnd, hrest⟩
      refine ⟨?_, ?_, ?_⟩
      · rw [heq, hs1, List.map_cons, List.append_assoc]
        rfl
      · intro hseen
        apply hnd
        rw [hs1, List.nodup_append_comm]
        exact List.nodup_cons.mpr ⟨hfresh, hseen⟩
      · intro x hx
        rcases List.mem_cons.mp hx with hx | hx
        · rw [hx]; exact hblock
        · exact hrest x hx

/-- A successful nebula pass appends every organization's addresses in
order, preserves freedom from duplicates, and admits only in-block
addresses. -/
theorem checkNebulaOrgs_ok_facts {certs : List String} :
    ∀ (orgs : List Organization) (seen s' : List String),
      checkNebulaOrgs certs seen orgs = .ok s' →
      s' = seen ++ (orgs.map orgAddresses).flatten ∧ (seen.Nodup → s'.Nodup)
        ∧ ∀ org ∈ orgs, ∀ n ∈ (nebulaNodesOf org).getD [], inBlockB n.address = true := by
  intro orgs
  induction orgs with
  | nil =>
    intro seen s' h
    simp only [checkNebulaOrgs] at h
    refine ⟨by simp [← Except.ok.inj h], fun hs => ?_, by simp⟩
    rw [← Except.ok.inj h]
    exact hs
  | cons org rest ih =>
    intro seen s' h
    simp only [checkNebulaOrgs] at h
    cases hsvc : nebulaNodesOf org with
    | none =>
      rw [hsvc] at h
      rcases ih seen s' h with ⟨heq, hnd, hrest⟩
      refine ⟨?_, hnd, ?_⟩
      · rw [heq]
        simp [orgAddresses, hsvc]
      · intro o ho
        rcases List.mem_cons.mp ho with ho | ho
        · rw [ho, hsvc]; simp
        · exact hrest o ho
    | some nodes =>
      rw [hsvc] at h
      have h2 : (match checkNodes certs org.spec.id seen nodes with
          | Except.error e => Except.error e
          | Except.ok seen' => checkNebulaOrgs certs seen' rest) = Except.ok s' := h
      cases hns : checkNodes certs org.spec.id seen nodes with
      | error e => rw [hns] at h2; exact absurd h2 (by simp)
      | ok s1 =>
        rw [hns] at h2
        rcases checkNodes_ok_facts nodes seen s1 hns with ⟨hs1, hnd1, hblock1⟩
        rcases ih s1 s' h2 with ⟨heq, hnd, hrest⟩
        refine ⟨?_, fun hs => hnd (hnd1 hs), ?_⟩
        · rw [heq, hs1]
          simp [orgAddresses, hsvc, List.append_assoc]
        · intro o ho
          rcases List.mem_cons.mp ho with ho | ho
          · rw [ho, hsvc]; exact hblock1
          · exact hrest o ho

/-- The registry with a parseable IPv6 address outside the fixed block. -/
def c6Registry : Registry :=
  { files := [ { fileName := "acme.yaml"
                 org := mkOrg "hackfed/v1" "acme" "acme" (nebOnly [mkNode "fd79:7636:ffff::1"]) } ]
    certs := [] }

/-- C6: every overlay-network node address of a registry that passes the
check lies inside fd79:7636:1f08:883d::/64 (it parses as an IPv6 literal
whose leading 64 bits match the block), and the registry whose node
declares the parseable out-of-block address fd79:7636:ffff::1 fails with
AddressOutOfRangeError. -/
theorem check_success_addresses_in_block :
    (∀ r : Registry,
        (r.files.map OrgFile.fileName).Nodup →
        (∀ f ∈ r.files, ∃ b, f.fileName = b ++ ".yaml") →
        checkRegistry r = .success →
        ∀ f ∈ r.files, ∀ n ∈ (nebulaNodesOf f.org).getD [], inBlockB n.address = true)
      ∧ checkRegistry c6Registry = .failed (.addressOutOfRange "acme" "fd79:7636:ffff::1") := by
  constructor
  · intro r hnodup hyaml hs f hf n hn
    unfold checkRegistry at hs
    cases ha : assembleOrgs [] r.files with
    | error e => rw [ha] at hs; exact absurd hs (by simp)
    | ok m =>
      rw [ha] at hs
      have hs2 : (if List.length m = 0 then CheckResult.emptyWarning
          else
            match checkNebulaOrgs r.certs [] (List.map (fun kv => kv.2) m) with
            | Except.error e => CheckResult.failed e
            | Except.ok _ =>
              match checkTelephonyOrgs [] (List.map (fun kv => kv.2) m) with
              | Except.error e => CheckResult.failed e
              | Except.ok _ => CheckResult.success) = CheckResult.success := hs
      by_cases hlen : m.length = 0
      · rw [if_pos hlen] at hs2; exact absurd hs2 (by simp)
      · rw [if_neg hlen] at hs2
        cases hneb : checkNebulaOrgs r.certs [] (m.map fun kv => kv.2) with
        | error e => rw [hneb] at hs2; exact absurd hs2 (by simp)
        | ok s1 =>
          have hm := assembleOrgs_yaml_eq r.files m hnodup hyaml ha
          have horg : f.org ∈ m.map fun kv => kv.2 := by
            rw [hm, List.map_map]
            exact List.mem_map.mpr ⟨f, hf, rfl⟩
          exact (checkNebulaOrgs_ok_facts _ [] s1 hneb).2.2 f.org horg n hn
  · rfl

/-- The registry that passes the whole check with one in-block node. -/
def c6PassRegistry : Registry :=
  { files := [ { fileName := "acme.yaml"
                 org := mkOrg "hackfed/v1" "acme" "acme" (nebOnly [mkNode "fd79:7636:1f08:883d::1"]) } ]
    certs := [] }

/-- C6 witness: the theorem's universal part applied to a concrete
passing registry and its single node. -/
theorem check_success_addresses_in_block_witness :
    inBlockB (mkNode "fd79:7636:1f08:883d::1").address = true :=
  check_success_addresses_in_block.1 c6PassRegistry (by decide)
    (by
      intro f hf
      rcases List.mem_cons.mp hf with h | h
      · exact ⟨"acme", by rw [h]; decide⟩
      · exact absurd h (List.not_mem_nil f))
    (by rfl)
    { fileName := "acme.yaml"
      org := mkOrg "hackfed/v1" "acme" "acme" (nebOnly [mkNode "fd79:7636:1f08:883d::1"]) }
    (by decide)
    (mkNode "fd79:7636:1f08:883d::1")
    (by decide)

/-- The certificate loop succeeds when every referenced fingerprint has a
file. -/
theorem checkCerts_ok_of_all {certs : List String} {orgId : String} :
    ∀ l : List String, (∀ fp ∈ l, certs.contains fp = true) →
      checkCerts certs orgId l = .ok () := by
  intro l
  induction l with
  | nil => intro _; rfl
  | cons fp rest ih =>
    intro h
    simp only [checkCerts]
    rw [if_pos (h fp (List.mem_cons_self fp rest))]
    exact ih fun x hx => h x (List.mem_cons_of_mem fp hx)

/-- The endpoint loop succeeds when every endpoint is a URL with a
port. -/
theorem checkEndpoints_ok_of_all {orgId : String} :
    ∀ l : List String, (∀ ep ∈ l, endpointOkB ep = true) →
      checkEndpoints orgId l = .ok () := by
  intro l
  induction l with
  | nil => intro _; rfl
  | cons ep rest ih =>
    intro h
    have hep := h ep (List.mem_cons_self ep rest)
    unfold endpointOkB at hep
    simp only [checkEndpoints]
    cases hu : urlPortOf ep with
    | none => rw [hu] at hep; exact absurd hep (by simp)
    | some o =>
      cases o with
      | none => rw [hu] at hep; exact absurd hep (by simp)
      | some p =>
        exact ih fun x hx => h x (List.mem_cons_of_mem ep hx)

/-- A node passing every per-node check either trips the duplicate test
or extends the set with its address. -/
theorem checkNode_of_nodeOk (certs : List String) (orgId : String) (seen : List String)
    (n : NebulaNode) (h : nodeOkB certs n = true) :
    (n.address ∈ seen → checkNode certs orgId seen n
        = .error (.duplicateAddress orgId n.address))
      ∧ (n.address ∉ seen → checkNode certs orgId seen n = .ok (seen ++ [n.address])) := by
  unfold nodeOkB at h
  rw [Bool.and_eq_true] at h
  rcases h with ⟨h12, heps⟩
  rw [Bool.and_eq_true] at h12
  rcases h12 with ⟨hblock, hcerts⟩
  unfold inBlockB at hblock
  unfold checkNode
  cases hp : ipaddrParse n.address with
  | none => rw [hp] at hblock; exact absurd hblock (by simp)
  | some ip =>
    rw [hp] at hblock
    cases ip with
    | v4 o => exact absurd hblock (by simp)
    | v6 g =>
      have hm : matchCIDR g hackfedCidrParts.1 16 hackfedCidrParts.2 = true := hblock
      simp only [ipMatch, hm, Bool.not_true]
      rw [if_neg (by simp)]
      constructor
      · intro hmem
        rw [if_pos (contains_true_iff.mpr hmem)]
      · intro hmem
        rw [if_neg fun hc => hmem (contains_true_iff.mp hc)]
        rw [checkCerts_ok_of_all n.certificates (fun fp hfp => by
          have := List.all_eq_true.mp hcerts fp hfp
          simpa using this)]
        rw [checkEndpoints_ok_of_all ((n.lighthouse.bind Lighthouse.endpoints).getD [])
          (fun ep hep => List.all_eq_true.mp heps ep hep)]

/-- A node loop over per-node-valid nodes either reports a duplicate
address or appends all the addresses. -/
theorem checkNodes_of_nodeOk (certs : List String) (orgId : String) :
    ∀ (ns : List NebulaNode) (seen : List String),
      (∀ n ∈ ns, nodeOkB certs n = true) →
      (∃ a, checkNodes certs orgId seen ns = .error (.duplicateAddress orgId a))
        ∨ checkNodes certs orgId seen ns = .ok (seen ++ ns.map NebulaNode.address) := by
  intro ns
  induction ns with
  | nil => intro seen _; right; simp [checkNodes]
  | cons n rest ih =>
    intro seen h
    have hn := checkNode_of_nodeOk certs orgId seen n (h n (List.mem_cons_self n rest))
    by_cases hmem : n.address ∈ seen
    · left
      refine ⟨n.address, ?_⟩
      simp only [checkNodes]
      rw [hn.1 hmem]
    · rcases ih (seen ++ [n.address]) (fun x hx => h x (List.mem_cons_of_mem n hx)) with
        ⟨a, ha⟩ | hok
      · left
        refine ⟨a, ?_⟩
        simp only [checkNodes]
        rw [hn.2 hmem]
        show checkNodes certs orgId (seen ++ [n.address]) rest
            = Except.error (CheckError.duplicateAddress orgId a)
        exact ha
      · right
        simp only [checkNodes]
        rw [hn.2 hmem]
        show checkNodes certs orgId (seen ++ [n.address]) rest
            = Except.ok (seen ++ List.map NebulaNode.address (n :: rest))
        rw [hok, List.map_cons]
        rw [List.append_assoc]
        rfl

/-- Unfolding the organization loop past an organization without a
nebula service. -/
theorem checkNebulaOrgs_cons_none (certs seen : List String) (org : Organization)
    (rest : List Organization) (h : nebulaNodesOf org = none) :
    checkNebulaOrgs certs seen (org :: rest) = checkNebulaOrgs certs seen rest := by
  simp only [checkNebulaOrgs, h]

/-- Unfolding the organization loop at an organization with a nebula
service. -/
theorem checkNebulaOrgs_cons_some (certs seen : List String) (org : Organization)
    (rest : List Organization) (nodes : List NebulaNode)
    (h : nebulaNodesOf org = some nodes) :
    checkNebulaOrgs certs seen (org :: rest)
      = match checkNodes certs org.spec.id seen nodes with
        | .error e => .error e
        | .ok seen' => checkNebulaOrgs certs seen' rest := by
  simp only [checkNebulaOrgs, h]

/-- The organization loop over per-node-valid registries either reports a
duplicate address or appends every organization's addresses. -/
theorem checkNebulaOrgs_of_nodeOk {certs : List String} :
    ∀ (orgs : List Organization) (seen : List String),
      (∀ org ∈ orgs, ∀ n ∈ (nebulaNodesOf org).getD [], nodeOkB certs n = true) →
      (∃ oid a, checkNebulaOrgs certs seen orgs = .error (.duplicateAddress oid a))
        ∨ checkNebulaOrgs certs seen orgs = .ok (seen ++ (orgs.map orgAddresses).flatten) := by
  intro orgs
  induction orgs with
  | nil => intro seen _; right; simp [checkNebulaOrgs]
  | cons org rest ih =>
    intro seen h
    cases hsvc : nebulaNodesOf org with
    | none =>
      rw [checkNebulaOrgs_cons_none certs seen org rest hsvc]
      rcases ih seen (fun o ho => h o (List.mem_cons_of_mem org ho)) with ⟨oid, a, ha⟩ | hok
      · left; exact ⟨oid, a, ha⟩
      · right
        rw [hok]
        simp [orgAddresses, hsvc]
    | some nodes =>
      have hnodes : ∀ n ∈ nodes, nodeOkB certs n = true := by
        have hh := h org (List.mem_cons_self org rest)
        rw [hsvc] at hh
        exact hh
      rw [checkNebulaOrgs_cons_some certs seen org rest nodes hsvc]
      rcases checkNodes_of_nodeOk certs org.spec.id nodes seen hnodes with ⟨a, ha⟩ | hok
      · left
        refine ⟨org.spec.id, a, ?_⟩
        rw [ha]
      · rw [hok]
        rcases ih (seen ++ nodes.map NebulaNode.address)
            (fun o ho => h o (List.mem_cons_of_mem org ho)) with ⟨oid, a, ha⟩ | hok2
        · left
          exact ⟨oid, a, ha⟩
        · right
          have hfin : checkNebulaOrgs certs (seen ++ List.map NebulaNode.address nodes) rest
              = Except.ok (seen ++ (List.map orgAddresses (org :: rest)).flatten) := by
            rw [hok2]
            simp [orgAddresses, hsvc, List.append_assoc]
          exact hfin

/-- Rewriting the check pipeline once the registry assembled nonempty. -/
theorem checkRegistry_eq_of_assembled (r : Registry) (m : OrganizationMap)
    (h : assembleOrgs [] r.files = .ok m) (hlen : ¬m.length = 0) :
    checkRegistry r
      = match checkNebulaOrgs r.certs [] (m.map fun kv => kv.2) with
        | .error e => .failed e
        | .ok _ =>
          match checkTelephonyOrgs [] (m.map fun kv => kv.2) with
          | .error e => .failed e
          | .ok _ => .success := by
  unfold checkRegistry
  rw [h]
  exact if_neg hlen

/-- C10: a duplicate overlay-network address is detected even within a
single organization, because the running address set is extended per node
rather than per organization: whenever every node passes its per-node
checks and some assembled organization declares the same address on two
of its own nodes, the check fails with DuplicateAddressError. -/
theorem within_org_duplicate_address_detected :
    ∀ (r : Registry) (m : OrganizationMap),
      assembleOrgs [] r.files = .ok m →
      (∀ org ∈ m.map (fun kv => kv.2), ∀ n ∈ (nebulaNodesOf org).getD [],
        nodeOkB r.certs n = true) →
      (∃ org ∈ m.map (fun kv => kv.2), ¬(orgAddresses org).Nodup) →
      ∃ e, checkRegistry r = .failed e ∧ e.kind = .duplicateAddress := by
  intro r m ha hok hdup
  rcases hdup with ⟨org, horg, hnotnodup⟩
  have hlen : ¬m.length = 0 := by
    intro h0
    rw [List.length_eq_zero.mp h0] at horg
    exact absurd horg (by simp)
  rw [checkRegistry_eq_of_assembled r m ha hlen]
  rcases checkNebulaOrgs_of_nodeOk (m.map fun kv => kv.2) [] hok with ⟨oid, a, herr⟩ | hokneb
  · rw [herr]
    exact ⟨.duplicateAddress oid a, rfl, rfl⟩
  · exfalso
    have hfacts := checkNebulaOrgs_ok_facts (m.map fun kv => kv.2) []
      ([] ++ ((m.map fun kv => kv.2).map orgAddresses).flatten) hokneb
    have hnodup : (((m.map fun kv => kv.2).map orgAddresses).flatten).Nodup := by
      have := hfacts.2.1 (by simp)
      simpa using this
    apply hnotnodup
    apply List.Nodup.sublist ?_ hnodup
    exact List.sublist_flatten_of_mem (List.mem_map.mpr ⟨org, horg, rfl⟩)

/-- The registry whose single organization declares the same address on
two of its own nodes. -/
def c10Registry : Registry :=
  { files := [ { fileName := "acme.yaml"
                 org := mkOrg "hackfed/v1" "acme" "acme"
                   (nebOnly [mkNode "fd79:7636:1f08:883d::1",
                             mkNode "fd79:7636:1f08:883d::1"]) } ]
    certs := [] }

/-- C10 witness: the theorem applied to the concrete one-organization
registry with a repeated address. -/
theorem within_org_duplicate_address_witness :
    ∃ e, checkRegistry c10Registry = .failed e ∧ e.kind = .duplicateAddress :=
  within_org_duplicate_address_detected c10Registry
    [ ("acme", mkOrg "hackfed/v1" "acme" "acme"
        (nebOnly [mkNode "fd79:7636:1f08:883d::1", mkNode "fd79:7636:1f08:883d::1"])) ]
    (by rfl) (by decide) (by decide)

/-! ## C7: the unknown-exchange-reference characterization -/

/-- A successful exchange loop returns the accumulated ids followed by
every declared id, in order. -/
theorem checkExchanges_ok {orgId : String} :
    ∀ (es : List TelephonyExchange) (acc exIds : List String),
      checkExchanges orgId acc es = .ok exIds →
      exIds = acc ++ es.map TelephonyExchange.id := by
  intro es
  induction es with
  | nil =>
    intro acc exIds h
    simp only [checkExchanges] at h
    simp [← Except.ok.inj h]
  | cons ex rest ih =>
    intro acc exIds h
    simp only [checkExchanges] at h
    by_cases h1 : acc.contains ex.id = true
    · rw [if_pos h1] at h; exact absurd h (by simp)
    · rw [if_neg h1] at h
      cases hu : urlPortOf ex.address with
      | none => rw [hu] at h; exact absurd h (by simp)
      | some o =>
        cases o with
        | none => rw [hu] at h; exact absurd h (by simp)
        | some p =>
          rw [hu] at h
          have h2 : checkExchanges orgId (acc ++ [ex.id]) rest = .ok exIds := h
          rw [ih (acc ++ [ex.id]) exIds h2, List.map_cons, List.append_assoc]
          rfl

/-- The exchange loop only fails with the duplicate-exchange or the
invalid-exchange-address error. -/
theorem checkExchanges_error_kind {orgId : String} :
    ∀ (es : List TelephonyExchange) (acc : List String) (e : CheckError),
      checkExchanges orgId acc es = .error e →
      e.kind = .duplicateExchange ∨ e.kind = .invalidExchangeAddress := by
  intro es
  induction es with
  | nil => intro acc e h; exact absurd h (by simp [checkExchanges])
  | cons ex rest ih =>
    intro acc e h
    simp only [checkExchanges] at h
    by_cases h1 : acc.contains ex.id = true
    · rw [if_pos h1] at h
      rw [← Except.error.inj h]
      left; rfl
    · rw [if_neg h1] at h
      cases hu : urlPortOf ex.address with
      | none =>
        rw [hu] at h
        rw [← Except.error.inj h]
        right; rfl
      | some o =>
        cases o with
        | none =>
          rw [hu] at h
          rw [← Except.error.inj h]
          right; rfl
        | some p =>
          rw [hu] at h
          exact ih (acc ++ [ex.id]) e h

/-- A successful prefix loop resolved every exchange reference inside the
organization's exchange set. -/
theorem checkPrefixList_ok_resolves {orgId : String} {exIds : List String} :
    ∀ (ps : List PrefixEntry) (g op : List String) (gs : List String × List String),
      checkPrefixList orgId g op exIds ps = .ok gs →
      ∀ p ∈ ps, p.exchange ∈ exIds := by
  intro ps
  induction ps with
  | nil => intro g op gs _; simp
  | cons p rest ih =>
    intro g op gs h q hq
    simp only [checkPrefixList] at h
    by_cases h1 : g.contains p.pfx = true
    · rw [if_pos h1] at h; exact absurd h (by simp)
    · rw [if_neg h1] at h
      by_cases h2 : op.contains p.pfx = true
      · rw [if_pos h2] at h; exact absurd h (by simp)
      · rw [if_neg h2] at h
        by_cases h3 : exIds.contains p.exchange = true
        · rw [if_neg (by intro hh; rw [h3] at hh; simp at hh)] at h
          rcases List.mem_cons.mp hq with hq | hq
          · rw [hq]; exact contains_true_iff.mp h3
          · exact ih _ _ gs h q hq
        · have h3f : exIds.contains p.exchange = false := by
            cases hb : exIds.contains p.exchange
            · rfl
            · exact absurd hb h3
          rw [if_pos (by rw [h3f]; rfl)] at h
          exact absurd h (by simp)

/-- A prefix loop failing with the unknown-exchange error contains an
entry referencing an id outside the organization's exchange set. -/
theorem checkPrefixList_error_unknown {orgId : String} {exIds : List String} :
    ∀ (ps : List PrefixEntry) (g op : List String) (e : CheckError),
      checkPrefixList orgId g op exIds ps = .error e →
      e.kind = .unknownExchangeRef →
      ∃ p ∈ ps, p.exchange ∉ exIds := by
  intro ps
  induction ps with
  | nil => intro g op e h _; exact absurd h (by simp [checkPrefixList])
  | cons p rest ih =>
    intro g op e h hkind
    simp only [checkPrefixList] at h
    by_cases h1 : g.contains p.pfx = true
    · rw [if_pos h1] at h
      rw [← Except.error.inj h] at hkind
      exact absurd hkind (by simp [CheckError.kind])
    · rw [if_neg h1] at h
      by_cases h2 : op.contains p.pfx = true
      · rw [if_pos h2] at h
        rw [← Except.error.inj h] at hkind
        exact absurd hkind (by simp [CheckError.kind])
      · rw [if_neg h2] at h
        by_cases h3 : exIds.contains p.exchange = true
        · rw [if_neg (by intro hh; rw [h3] at hh; simp at hh)] at h
          rcases ih _ _ e h hkind with ⟨q, hq, hnq⟩
          exact ⟨q, List.mem_cons_of_mem p hq, hnq⟩
        · exact ⟨p, List.mem_cons_self p rest,
            fun hm => h3 (contains_true_iff.mpr hm)⟩

/-- Certificate loop failures are missing-certificate errors. -/
theorem checkCerts_error_kind {certs : List String} {orgId : String} :
    ∀ (l : List String) (e : CheckError),
      checkCerts certs orgId l = .error e → e.kind = .missingCertificate := by
  intro l
  induction l with
  | nil => intro e h; exact absurd h (by simp [checkCerts])
  | cons fp rest ih =>
    intro e h
    simp only [checkCerts] at h
    by_cases h1 : certs.contains fp = true
    · rw [if_pos h1] at h
      exact ih e h
    · rw [if_neg h1] at h
      rw [← Except.error.inj h]
      rfl

/-- Endpoint loop failures are invalid-endpoint errors. -/
theorem checkEndpoints_error_kind {orgId : String} :
    ∀ (l : List String) (e : CheckError),
      checkEndpoints orgId l = .error e → e.kind = .invalidEndpoint := by
  intro l
  induction l with
  | nil => intro e h; exact absurd h (by simp [checkEndpoints])
  | cons ep rest ih =>
    intro e h
    simp only [checkEndpoints] at h
    cases hu : urlPortOf ep with
    | none =>
      rw [hu] at h
      rw [← Except.error.inj h]
      rfl
    | some o =>
      cases o with
      | none =>
        rw [hu] at h
        rw [← Except.error.inj h]
        rfl
      | some p => rw [hu] at h; exact ih e h

/-- The kinds a single node check can fail with. -/
theorem checkNode_error_kind {certs : List String} {orgId : String} {seen : List String}
    {n : NebulaNode} {e : CheckError} (h : checkNode certs orgId seen n = .error e) :
    e.kind = .uncaught ∨ e.kind = .addressOutOfRange ∨ e.kind = .duplicateAddress
      ∨ e.kind = .missingCertificate ∨ e.kind = .invalidEndpoint := by
  unfold checkNode at h
  cases hp : ipaddrParse n.address with
  | none =>
    rw [hp] at h
    rw [← Except.error.inj h]
    left; rfl
  | some ip =>
    rw [hp] at h
    cases ip with
    | v4 o =>
      simp only [ipMatch] at h
      rw [← Except.error.inj h]
      left; rfl
    | v6 g =>
      simp only [ipMatch] at h
      cases hm : matchCIDR g hackfedCidrParts.1 16 hackfedCidrParts.2 with
      | false =>
        rw [hm] at h
        simp only [Bool.not_false] at h
        rw [if_pos trivial] at h
        rw [← Except.error.inj h]
        right; left; rfl
      | true =>
        rw [hm] at h
        simp only [Bool.not_true] at h
        rw [if_neg (by simp)] at h
        by_cases hseen : seen.contains n.address = true
        · rw [if_pos hseen] at h
          rw [← Except.error.inj h]
          right; right; left; rfl
        · rw [if_neg hseen] at h
          cases hcerts : checkCerts certs orgId n.certificates with
          | error e' =>
            rw [hcerts] at h
            rw [← Except.error.inj h]
            right; right; right; left
            exact checkCerts_error_kind n.certificates e' hcerts
          | ok u =>
            rw [hcerts] at h
            cases heps : checkEndpoints orgId ((n.lighthouse.bind Lighthouse.endpoints).getD []) with
            | error e' =>
              rw [heps] at h
              rw [← Except.error.inj h]
              right; right; right; right
              exact checkEndpoints_error_kind _ e' heps
            | ok u' =>
              rw [heps] at h
              exact absurd h (by simp)

/-- The kinds the node loop can fail with. -/
theorem checkNodes_error_kind {certs : List String} {orgId : String} :
    ∀ (ns : List NebulaNode) (seen : List String) (e : CheckError),
      checkNodes certs orgId seen ns = .error e →
      e.kind = .uncaught ∨ e.kind = .addressOutOfRange ∨ e.kind = .duplicateAddress
        ∨ e.kind = .missingCertificate ∨ e.kind = .invalidEndpoint := by
  intro ns
  induction ns with
  | nil => intro seen e h; exact absurd h (by simp [checkNodes])
  | cons n rest ih =>
    intro seen e h
    simp only [checkNodes] at h
    cases hn : checkNode certs orgId seen n with
    | error e' =>
      rw [hn] at h
      rw [← Except.error.inj h]
      exact checkNode_error_kind hn
    | ok s1 =>
      rw [hn] at h
      exact ih s1 e h

/-- The kinds the whole nebula checker can fail with. -/
theorem checkNebulaOrgs_error_kind {certs : List String} :
    ∀ (orgs : List Organization) (seen : List String) (e : CheckError),
      checkNebulaOrgs certs seen orgs = .error e →
      e.kind = .uncaught ∨ e.kind = .addressOutOfRange ∨ e.kind = .duplicateAddress
        ∨ e.kind = .missingCertificate ∨ e.kind = .invalidEndpoint := by
  intro orgs
  induction orgs with
  | nil => intro seen e h; exact absurd h (by simp [checkNebulaOrgs])
  | cons org rest ih =>
    intro seen e h
    cases hsvc : nebulaNodesOf org with
    | none =>
      rw [checkNebulaOrgs_cons_none certs seen org rest hsvc] at h
      exact ih seen e h
    | some nodes =>
      rw [checkNebulaOrgs_cons_some certs seen org rest nodes hsvc] at h
      cases hns : checkNodes certs org.spec.id seen nodes with
      | error e' =>
        rw [hns] at h
        rw [← Except.error.inj h]
        exact checkNodes_error_kind nodes seen e' hns
      | ok s1 =>
        rw [hns] at h
        exact ih s1 e h

/-- The loader only fails with the unsupported-version or the
identity-mismatch error. -/
theorem checkOrganization_error_kind {fp : String} {o : Organization} {e : CheckError}
    (h : checkOrganization fp o = .error e) :
    e.kind = .unsupportedVersion ∨ e.kind = .identityMismatch := by
  unfold checkOrganization at h
  by_cases h1 : o.apiVersion = "hackfed/v1"
  · rw [if_neg (fun hh => hh h1)] at h
    by_cases h2 : o.metadata.orgId = stripExt fp
    · rw [if_neg (fun hh => hh h2)] at h
      by_cases h3 : o.metadata.orgId = o.spec.id
      · rw [if_neg (fun hh => hh h3)] at h
        exact absurd h (by simp)
      · rw [if_pos h3] at h
        rw [← Except.error.inj h]
        right; rfl
    · rw [if_pos h2] at h
      rw [← Except.error.inj h]
      right; rfl
  · rw [if_pos h1] at h
    rw [← Except.error.inj h]
    left; rfl

/-- The assembler only fails with loader errors. -/
theorem assembleOrgs_error_kind :
    ∀ (files : List OrgFile) (m : OrganizationMap) (e : CheckError),
      assembleOrgs m files = .error e →
      e.kind = .unsupportedVersion ∨ e.kind = .identityMismatch := by
  intro files
  induction files with
  | nil => intro m e h; exact absurd h (by simp [assembleOrgs])
  | cons f rest ih =>
    intro m e h
    simp only [assembleOrgs] at h
    cases hc : checkOrganization f.fileName f.org with
    | error e' =>
      rw [hc] at h
      rw [← Except.error.inj h]
      exact checkOrganization_error_kind hc
    | ok org =>
      rw [hc] at h
      exact ih (jsMapSet m org.spec.id org) e h

/-- Unfolding the telephony loop past an organization without the
service. -/
theorem checkTelephonyOrgs_cons_none (g : List String) (org : Organization)
    (rest : List Organization) (h : telephonyOf org = none) :
    checkTelephonyOrgs g (org :: rest) = checkTelephonyOrgs g rest := by
  simp only [checkTelephonyOrgs, h]

/-- Unfolding the telephony loop at an organization with the service. -/
theorem checkTelephonyOrgs_cons_some (g : List String) (org : Organization)
    (rest : List Organization) (tel : TelephonyService) (h : telephonyOf org = some tel) :
    checkTelephonyOrgs g (org :: rest)
      = match checkExchanges org.spec.id [] (tel.exchanges.getD []) with
        | .error e => .error e
        | .ok exIds =>
          match checkPrefixList org.spec.id g [] exIds (tel.prefixes.getD []) with
          | .error e => .error e
          | .ok gs => checkTelephonyOrgs gs.1 rest := by
  simp only [checkTelephonyOrgs, h]

/-- A telephony failure of kind unknown-exchange-reference exhibits an
organization with a dangling prefix. -/
theorem checkTelephonyOrgs_error_unknown :
    ∀ (orgs : List Organization) (g : List String) (e : CheckError),
      checkTelephonyOrgs g orgs = .error e → e.kind = .unknownExchangeRef →
      ∃ org ∈ orgs, danglingB org = true := by
  intro orgs
  induction orgs with
  | nil => intro g e h _; exact absurd h (by simp [checkTelephonyOrgs])
  | cons org rest ih =>
    intro g e h hkind
    cases hsvc : telephonyOf org with
    | none =>
      rw [checkTelephonyOrgs_cons_none g org rest hsvc] at h
      rcases ih g e h hkind with ⟨o, ho, hd⟩
      exact ⟨o, List.mem_cons_of_mem org ho, hd⟩
    | some tel =>
      rw [checkTelephonyOrgs_cons_some g org rest tel hsvc] at h
      cases hex : checkExchanges org.spec.id [] (tel.exchanges.getD []) with
      | error e' =>
        rw [hex] at h
        rw [← Except.error.inj h] at hkind
        rcases checkExchanges_error_kind (tel.exchanges.getD []) [] e' hex with hk | hk <;>
          · rw [hk] at hkind
            exact absurd hkind (by simp)
      | ok exIds =>
        rw [hex] at h
        have h2 : (match checkPrefixList org.spec.id g [] exIds (tel.prefixes.getD []) with
            | Except.error e => Except.error e
            | Except.ok gs => checkTelephonyOrgs gs.1 rest) = Except.error e := h
        cases hpl : checkPrefixList org.spec.id g [] exIds (tel.prefixes.getD []) with
        | error e' =>
          rw [hpl] at h2
          rw [← Except.error.inj h2] at hkind
          rcases checkPrefixList_error_unknown (tel.prefixes.getD []) g [] e' hpl
              hkind with ⟨p, hp, hnp⟩
          refine ⟨org, List.mem_cons_self org rest, ?_⟩
          unfold danglingB
          rw [hsvc]
          apply List.any_eq_true.mpr
          refine ⟨p, hp, ?_⟩
          have hids : exIds = (tel.exchanges.getD []).map TelephonyExchange.id := by
            have := checkExchanges_ok (tel.exchanges.getD []) [] exIds hex
            simpa using this
          rw [← hids] at *
          have hcf : (exIds.contains p.exchange) = false := by
            cases hb : exIds.contains p.exchange
            · rfl
            · exact absurd (contains_true_iff.mp hb) hnp
          rw [hids] at hcf
          rw [hcf]
          rfl
        | ok gs =>
          rw [hpl] at h2
          rcases ih gs.1 e h2 hkind with ⟨o, ho, hd⟩
          exact ⟨o, List.mem_cons_of_mem org ho, hd⟩

/-- A successful telephony pass leaves no dangling prefix anywhere. -/
theorem checkTelephonyOrgs_ok_nodangling :
    ∀ (orgs : List Organization) (g g' : List String),
      checkTelephonyOrgs g orgs = .ok g' →
      ∀ org ∈ orgs, danglingB org = false := by
  intro orgs
  induction orgs with
  | nil => intro g g' _ o ho; exact absurd ho (by simp)
  | cons org rest ih =>
    intro g g' h o ho
    cases hsvc : telephonyOf org with
    | none =>
      rw [checkTelephonyOrgs_cons_none g org rest hsvc] at h
      rcases List.mem_cons.mp ho with ho | ho
      · rw [ho]
        unfold danglingB
        rw [hsvc]
      · exact ih g g' h o ho
    | some tel =>
      rw [checkTelephonyOrgs_cons_some g org rest tel hsvc] at h
      cases hex : checkExchanges org.spec.id [] (tel.exchanges.getD []) with
      | error e' => rw [hex] at h; exact absurd h (by simp)
      | ok exIds =>
        rw [hex] at h
        have h2 : (match checkPrefixList org.spec.id g [] exIds (tel.prefixes.getD []) with
            | Except.error e => Except.error e
            | Except.ok gs => checkTelephonyOrgs gs.1 rest) = Except.ok g' := h
        cases hpl : checkPrefixList org.spec.id g [] exIds (tel.prefixes.getD []) with
        | error e' => rw [hpl] at h2; exact absurd h2 (by simp)
        | ok gs =>
          rw [hpl] at h2
          rcases List.mem_cons.mp ho with ho | ho
          · rw [ho]
            unfold danglingB
            rw [hsvc]
            apply List.any_eq_false.mpr
            intro p hp
            have hres := checkPrefixList_ok_resolves (tel.prefixes.getD []) g [] gs hpl p hp
            have hids : exIds = (tel.exchanges.getD []).map TelephonyExchange.id := by
              have := checkExchanges_ok (tel.exchanges.getD []) [] exIds hex
              simpa using this
            rw [hids] at hres
            simp
            rcases List.mem_map.mp hres with ⟨x, hx, hid⟩
            exact ⟨x, hx, hid⟩
          · exact ih gs.1 g' h2 o ho

/-- The registry whose only prefix references the organization's last
declared exchange. -/
def c7Registry : Registry :=
  { files := [ { fileName := "acme.yaml"
                 org := mkOrg "hackfed/v1" "acme" "acme"
                   (telOnly [mkExchange "ex1" "10.0.0.1:5060" [] "sip",
                             mkExchange "ex2" "10.0.0.2:5060" [] "sip"]
                     [ { pfx := "1", exchange := "ex2" } ]) } ]
    certs := [] }

/-- The registry whose only prefix references an undeclared exchange. -/
def c7BadRegistry : Registry :=
  { files := [ { fileName := "acme.yaml"
                 org := mkOrg "hackfed/v1" "acme" "acme"
                   (telOnly [mkExchange "ex1" "10.0.0.1:5060" [] "sip"]
                     [ { pfx := "1", exchange := "zzz" } ]) } ]
    certs := [] }

/-- C7: the check fails with UnknownExchangeReferenceError only when some
assembled organization declares a prefix whose exchange field names none
of that organization's own exchanges; conversely such a dangling prefix
prevents success (the check fails with some first-detected error); and
since the organization's full exchange set is built before its prefixes
are checked, a prefix referencing the organization's last declared
exchange passes the whole check. -/
theorem unknown_exchange_ref_characterization :
    (∀ (r : Registry) (m : OrganizationMap) (e : CheckError),
        assembleOrgs [] r.files = .ok m →
        checkRegistry r = .failed e →
        e.kind = .unknownExchangeRef →
        ∃ org ∈ m.map (fun kv => kv.2), danglingB org = true)
      ∧ (∀ (r : Registry) (m : OrganizationMap),
          assembleOrgs [] r.files = .ok m →
          (∃ org ∈ m.map (fun kv => kv.2), danglingB org = true) →
          ∃ e, checkRegistry r = .failed e)
      ∧ checkRegistry c7Registry = .success := by
  refine ⟨?_, ?_, by rfl⟩
  · intro r m e ha hf hkind
    by_cases hlen : m.length = 0
    · have hw : checkRegistry r = .emptyWarning := by
        unfold checkRegistry
        rw [ha]
        exact if_pos hlen
      rw [hw] at hf
      exact absurd hf (by simp)
    · rw [checkRegistry_eq_of_assembled r m ha hlen] at hf
      cases hneb : checkNebulaOrgs r.certs [] (m.map fun kv => kv.2) with
      | error e' =>
        rw [hneb] at hf
        rw [← CheckResult.failed.inj hf] at hkind
        rcases checkNebulaOrgs_error_kind (m.map fun kv => kv.2) [] e' hneb with
          hk | hk | hk | hk | hk <;>
          · rw [hk] at hkind
            exact absurd hkind (by simp)
      | ok s =>
        rw [hneb] at hf
        have hf2 : (match checkTelephonyOrgs [] (m.map fun kv => kv.2) with
            | Except.error e => CheckResult.failed e
            | Except.ok _ => CheckResult.success) = CheckResult.failed e := hf
        cases htel : checkTelephonyOrgs [] (m.map fun kv => kv.2) with
        | error e' =>
          rw [htel] at hf2
          rw [← CheckResult.failed.inj hf2] at hkind
          exact checkTelephonyOrgs_error_unknown (m.map fun kv => kv.2) [] e' htel hkind
        | ok g' =>
          rw [htel] at hf2
          exact absurd hf2 (by simp)
  · intro r m ha hdang
    rcases hdang with ⟨org, horg, hd⟩
    have hlen : ¬m.length = 0 := by
      intro h0
      rw [List.length_eq_zero.mp h0] at horg
      exact absurd horg (by simp)
    rw [checkRegistry_eq_of_assembled r m ha hlen]
    cases hneb : checkNebulaOrgs r.certs [] (m.map fun kv => kv.2) with
    | error e' => exact ⟨e', rfl⟩
    | ok s =>
      cases htel : checkTelephonyOrgs [] (m.map fun kv => kv.2) with
      | error e' => exact ⟨e', rfl⟩
      | ok g' =>
        exfalso
        have := checkTelephonyOrgs_ok_nodangling (m.map fun kv => kv.2) [] g' htel org horg
        rw [hd] at this
        exact absurd this (by simp)

/-- C7 witness: the theorem's converse half applied to the concrete
registry with a dangling exchange reference. -/
theorem unknown_exchange_ref_witness :
    ∃ e, checkRegistry c7BadRegistry = .failed e :=
  unknown_exchange_ref_characterization.2.1 c7BadRegistry
    [ ("acme", mkOrg "hackfed/v1" "acme" "acme"
        (telOnly [mkExchange "ex1" "10.0.0.1:5060" [] "sip"]
          [ { pfx := "1", exchange := "zzz" } ])) ]
    (by rfl) (by decide)
